import Mathlib

/-!
Verification of the go-email message library: a shallow embedding of its
header store, media-type parsing, line-folding writers, content-transfer
codecs, message serializer and message parser, together with theorems
checking the library's specification claims.

Bytes are modelled as natural numbers (the Go code works on `[]byte`), byte
streams as `List Nat`, and Go maps `map[string][]string` as association
lists in a fixed iteration order.
-/

namespace GoEmail

/-- Byte value of each character of an ASCII string literal. -/
def bytes (s : String) : List Nat := s.data.map Char.toNat

/-- isASCIISpace from utilities.go: space, tab, newline or carriage return. -/
def isASCIISpace (b : Nat) : Bool := b == 32 || b == 9 || b == 10 || b == 13

/-- Go's `max` helper from utilities.go (on ints; arguments here are Nat). -/
def goMax (a b : Nat) : Nat := Nat.max a b

def isUpperByte (b : Nat) : Bool := 65 ≤ b && b ≤ 90
def isLowerByte (b : Nat) : Bool := 97 ≤ b && b ≤ 122
def isDigitByte (b : Nat) : Bool := 48 ≤ b && b ≤ 57

/-- Lowercase one ASCII byte (used by mime.ParseMediaType). -/
def toLowerByte (b : Nat) : Nat := if isUpperByte b then b + 32 else b

/-- Uppercase one ASCII byte. -/
def toUpperByte (b : Nat) : Nat := if isLowerByte b then b - 32 else b

def toLower (s : List Nat) : List Nat := s.map toLowerByte

/-- Valid header-field byte per net/textproto (token characters). -/
def validHeaderFieldByte (b : Nat) : Bool :=
  isUpperByte b || isLowerByte b || isDigitByte b ||
  b == 33 || b == 35 || b == 36 || b == 37 || b == 38 || b == 39 ||
  b == 42 || b == 43 || b == 45 || b == 46 || b == 94 || b == 95 ||
  b == 96 || b == 124 || b == 126

/-- The case-mapping pass of textproto.CanonicalMIMEHeaderKey:
uppercase after start or a hyphen, lowercase otherwise. -/
def canonicalizeBytes : Bool → List Nat → List Nat
  | _, [] => []
  | upper, b :: rest =>
    let c := if upper then toUpperByte b else toLowerByte b
    c :: canonicalizeBytes (c == 45) rest

/-- textproto.CanonicalMIMEHeaderKey: returns the key unchanged when it
contains an invalid header-field byte, else canonicalizes the case. -/
def canonicalMIMEHeaderKey (s : List Nat) : List Nat :=
  if s.all validHeaderFieldByte then canonicalizeBytes true s else s

/-- Header from header.go: MIME-style key-value pairs.  The Go type is
`map[string][]string`; it is modelled as an association list in a fixed
iteration order, one entry per key. -/
abbrev Header := List (List Nat × List (List Nat))

namespace Header

/-- Raw map lookup. -/
def find (h : Header) (key : List Nat) : Option (List (List Nat)) :=
  (h.find? (fun e => e.1 == key)).map (·.2)

/-- Header.Get: first value for the canonicalized key, "" when absent.
(The nil-receiver guard of the Go method lives in `getOrNil`.) -/
def get (h : Header) (key : List Nat) : List Nat :=
  match h.find (canonicalMIMEHeaderKey key) with
  | none => []
  | some [] => []
  | some (v :: _) => v

/-- Header.IsSet: key present in the map. -/
def isSet (h : Header) (key : List Nat) : Bool :=
  (h.find (canonicalMIMEHeaderKey key)).isSome

/-- Header.Set: replace all values of the canonicalized key by one value. -/
def set (h : Header) (key value : List Nat) : Header :=
  let k := canonicalMIMEHeaderKey key
  if h.any (fun e => e.1 == k) then
    h.map (fun e => if e.1 == k then (e.1, [value]) else e)
  else
    h ++ [(k, [value])]

/-- Header.Add: append a value to the canonicalized key. -/
def add (h : Header) (key value : List Nat) : Header :=
  let k := canonicalMIMEHeaderKey key
  if h.any (fun e => e.1 == k) then
    h.map (fun e => if e.1 == k then (e.1, e.2 ++ [value]) else e)
  else
    h ++ [(k, [value])]

/-- Header.Del: delete the canonicalized key. -/
def del (h : Header) (key : List Nat) : Header :=
  let k := canonicalMIMEHeaderKey key
  h.filter (fun e => e.1 != k)

end Header

/-- A possibly-nil Go Header value (`var h Header` is nil; a nil map reads
as empty but is distinguishable from an allocated empty map). -/
def HeaderOrNil := Option Header

/-- Header.Get on a possibly-nil receiver: the method starts with
`if h == nil { return "" }`. -/
def getOrNil (h : HeaderOrNil) (key : List Nat) : List Nat :=
  match h with
  | none => []
  | some hdr => hdr.get key

/-- Header.IsSet on a possibly-nil receiver: the method starts with
`if h == nil { return false }`. -/
def isSetOrNil (h : HeaderOrNil) (key : List Nat) : Bool :=
  match h with
  | none => false
  | some hdr => hdr.isSet key

/-! ## Message-Id generation (utilities.go) and Header.Save (header.go) -/

/-- Decimal rendering of a natural number, as ASCII bytes. -/
def natDecBytes (n : Nat) : List Nat := (Nat.toDigits 10 n).map Char.toNat

/-- genMessageID from utilities.go, with the random source, hostname
lookup, pid and clock injected.  The result mirrors Go's
`(string, error)` pair: the second component is the returned error.
Note the translated `return "", nil` in the random-failure branch. -/
def genMessageID (rnd : Except Unit Nat) (host : Except Unit (List Nat))
    (pid nano : Nat) : List Nat × Option Unit :=
  match rnd with
  | .error _ => ([], none)
  | .ok random =>
    let hostname := match host with
      | .ok h => h
      | .error _ => bytes "localhost"
    (bytes "<" ++ natDecBytes nano ++ bytes "." ++ natDecBytes pid ++
      bytes "." ++ natDecBytes random ++ bytes "@" ++ hostname ++ bytes ">",
      none)

/-- Header.Save from header.go: fill in Message-Id (via genMessageID),
Date, and MIME-Version when missing; an error from id generation aborts. -/
def Header.save (h : Header) (rnd : Except Unit Nat)
    (host : Except Unit (List Nat)) (pid nano : Nat) (dateNow : List Nat) :
    Except Unit Header :=
  let step1 : Except Unit Header :=
    if (h.get (bytes "Message-Id")).length = 0 then
      let r := genMessageID rnd host pid nano
      match r.2 with
      | some e => .error e
      | none => .ok (h.set (bytes "Message-Id") (bytes "<" ++ r.1 ++ bytes ">"))
    else .ok h
  match step1 with
  | .error e => .error e
  | .ok h1 =>
    let h2 := if (h1.get (bytes "Date")).length = 0
      then h1.set (bytes "Date") dateNow else h1
    .ok (h2.set (bytes "MIME-Version") (bytes "1.0"))

/-! ## mime.ParseMediaType (model of the Go standard library) -/

/-- mime.isTokenChar: printable US-ASCII except tspecials. -/
def isTokenChar (b : Nat) : Bool :=
  32 < b && b < 127 &&
  !(b == 40 || b == 41 || b == 60 || b == 62 || b == 64 ||
    b == 44 || b == 59 || b == 58 || b == 92 || b == 34 ||
    b == 47 || b == 91 || b == 93 || b == 63 || b == 61)

/-- Longest token prefix and the rest (mime consumeToken). -/
def consumeToken (v : List Nat) : List Nat × List Nat :=
  (v.takeWhile isTokenChar, v.dropWhile isTokenChar)

/-- Quoted-string scan of mime consumeValue: content bytes collected until
the closing quote, honoring backslash escapes; a CR/LF or a missing closing
quote fails (signalled by returning the input unchanged with an empty value). -/
def consumeQuoted : List Nat → Option (List Nat × List Nat)
  | [] => none
  | b :: rest =>
    if b == 34 then some ([], rest)
    else if b == 13 || b == 10 then none
    else if b == 92 then
      match rest with
      | c :: rest2 =>
        if 32 < c && c != 127 then
          (consumeQuoted rest2).map (fun r => (c :: r.1, r.2))
        else if c == 13 || c == 10 then none
        else (consumeQuoted rest2).map (fun r => (b :: c :: r.1, r.2))
      | [] => none
    else (consumeQuoted rest).map (fun r => (b :: r.1, r.2))

/-- mime consumeValue: a token, or a double-quoted string. -/
def consumeValue (v : List Nat) : List Nat × List Nat :=
  match v with
  | [] => ([], [])
  | b :: rest =>
    if b == 34 then
      match consumeQuoted rest with
      | some (val, r) => (val, r)
      | none => ([], v)
    else consumeToken v

def trimLeftSpace (v : List Nat) : List Nat := v.dropWhile isASCIISpace

def trimSpace (v : List Nat) : List Nat :=
  ((trimLeftSpace v).reverse.dropWhile isASCIISpace).reverse

/-- mime consumeMediaParam: `;` key `=` value, with surrounding space. -/
def consumeMediaParam (v : List Nat) : Option (List Nat × List Nat × List Nat) :=
  let rest := trimLeftSpace v
  match rest with
  | b :: rest1 =>
    if b == 59 then
      let rest2 := trimLeftSpace rest1
      let (param, rest3) := consumeToken rest2
      if param.isEmpty then none
      else
        match trimLeftSpace rest3 with
        | c :: rest4 =>
          if c == 61 then
            let rest5 := trimLeftSpace rest4
            let (value, rest6) := consumeValue rest5
            if value.isEmpty && rest6 == rest5 then none
            else some (toLower param, value, rest6)
          else none
        | [] => none
    else none
  | [] => none

/-- mime checkMediaTypeDisposition on the lowered, trimmed base type:
token, optionally `/` token, nothing else. -/
def checkMediaTypeDisposition (s : List Nat) : Bool :=
  let (typ, rest) := consumeToken s
  if typ.isEmpty then false
  else match rest with
    | [] => true
    | b :: rest1 =>
      if b == 47 then
        let (subtype, rest2) := consumeToken rest1
        !subtype.isEmpty && rest2.isEmpty
      else false

/-- Media-type parameters in encounter order. -/
abbrev Params := List (List Nat × List Nat)

def paramsGet (ps : Params) (key : List Nat) : List Nat :=
  match ps.find? (fun e => e.1 == key) with
  | some e => e.2
  | none => []

/-- Parameter loop of mime.ParseMediaType (fuel-bounded; RFC 2231
continuation merging is not modelled — keys are stored as written). -/
def parseParamsLoop : Nat → List Nat → Params → Option Params
  | 0, _, _ => none
  | n + 1, v, acc =>
    let v1 := trimLeftSpace v
    if v1.isEmpty then some acc
    else
      match consumeMediaParam v1 with
      | some (key, value, rest) =>
        if acc.any (fun e => e.1 == key) then none
        else parseParamsLoop n rest (acc ++ [(key, value)])
      | none => if trimSpace v1 == [59] then some acc else none

/-- mime.ParseMediaType: lowered trimmed media type before the first `;`,
then the parameter list; errors are collapsed to `none`. -/
def parseMediaType (v : List Nat) : Option (List Nat × Params) :=
  let base := v.takeWhile (fun b => b != 59)
  let rest := v.dropWhile (fun b => b != 59)
  let mediatype := trimSpace (toLower base)
  if checkMediaTypeDisposition mediatype then
    match parseParamsLoop (rest.length + 1) rest [] with
    | some ps => some (mediatype, ps)
    | none => none
  else none

/-! ## headerWriter (utilities.go): line folding for header output -/

/-- MaxHeaderTotalLength from header.go (the writer's configured limit). -/
def MaxHeaderTotalLength : Nat := 998

/-- MaxBodyLineLength from message.go (base64 folding column). -/
def MaxBodyLineLength : Nat := 76

/-- bytes.LastIndexByte: index of the last occurrence, if any. -/
def lastIndexOfByte : List Nat → Nat → Option Nat
  | [], _ => none
  | x :: rest, b =>
    match lastIndexOfByte rest b with
    | some i => some (i + 1)
    | none => if x == b then some 0 else none

/-- The split point chosen by headerWriter.Write on an overflowing chunk:
the last space inside the allowed prefix when its index is positive, else
a hard split at the limit. -/
def hwSplit (maxLineLen cur : Nat) (p : List Nat) : Nat :=
  match lastIndexOfByte (p.take (maxLineLen - cur)) 32 with
  | some i => if 0 < i then i else maxLineLen - cur
  | none => maxLineLen - cur

/-- The folding loop of headerWriter.Write: while the chunk would overflow
the line, split at `hwSplit`, emit CRLF plus one indent space, and
continue at column 1.  Fuel-bounded; the wrapper passes fuel that is
provably sufficient whenever maxLineLen is at least 2. -/
def hwLoop (maxLineLen : Nat) : Nat → Nat → List Nat → List Nat × Nat
  | 0, cur, p => (p, cur + p.length)
  | fuel + 1, cur, p =>
    if p.length + cur > maxLineLen then
      let t := hwSplit maxLineLen cur p
      let r := hwLoop maxLineLen fuel 1 (p.drop t)
      (p.take t ++ [13, 10, 32] ++ r.1, r.2)
    else (p, cur + p.length)

/-- headerWriter.Write from utilities.go: the chunk's emitted bytes and the
updated curLineLen. -/
def headerWrite (maxLineLen cur : Nat) (p : List Nat) : List Nat × Nat :=
  hwLoop maxLineLen (2 * p.length + 2) cur p

/-- A sequence of writes through one headerWriter, threading curLineLen. -/
def headerWriteAll (maxLineLen : Nat) : Nat → List (List Nat) → List Nat × Nat
  | cur, [] => ([], cur)
  | cur, p :: rest =>
    let r := headerWrite maxLineLen cur p
    let r2 := headerWriteAll maxLineLen r.2 rest
    (r.1 ++ r2.1, r2.2)

/-- Longest emitted line of a byte stream, starting from a given column:
a CRLF (or bare LF) ends a line; the CR of a CRLF pair occupies no column. -/
def maxCol : List Nat → Nat → Nat
  | [], col => col
  | b :: rest, col =>
    if b = 10 then Nat.max col (maxCol rest 0)
    else if b = 13 then maxCol rest col
    else maxCol rest (col + 1)

/-- Column after processing a byte stream from a given column. -/
def endCol : List Nat → Nat → Nat
  | [], col => col
  | b :: rest, col =>
    if b = 10 then endCol rest 0
    else if b = 13 then endCol rest col
    else endCol rest (col + 1)

/-! ## RFC 2047 Q-encoding (model of mime.WordEncoder) and Header.WriteTo -/

/-- mime needsEncoding: any byte outside printable ASCII (tab excepted). -/
def needsEncoding (v : List Nat) : Bool :=
  v.any (fun b => (b < 32 || b > 126) && b != 9)

def upperHexDigit (n : Nat) : Nat := if n < 10 then 48 + n else 55 + n

/-- One byte of RFC 2047 Q-encoded text: space becomes underscore,
printable bytes other than `=`, `?`, `_` pass through, the rest become
an uppercase hex escape. -/
def qEscapeByte (b : Nat) : List Nat :=
  if b == 32 then [95]
  else if 33 ≤ b && b ≤ 126 && b != 61 && b != 63 && b != 95 then [b]
  else [61, upperHexDigit (b / 16), upperHexDigit (b % 16)]

/-- mime.QEncoding.Encode("UTF-8", v): unchanged when no byte needs
encoding, otherwise a Q-encoded word (the stdlib's splitting of words
longer than 75 bytes is not modelled). -/
def qEncodeValue (v : List Nat) : List Nat :=
  if needsEncoding v then
    bytes "=?UTF-8?q?" ++ (v.map qEscapeByte).flatten ++ bytes "?="
  else v

/-- One header line as emitted by Header.WriteTo: curLineLen is reset,
then the field name, the separator, the trimmed Q-encoded value, and CRLF
pass through the folding writer. -/
def headerLine (field val : List Nat) : List Nat :=
  (headerWriteAll MaxHeaderTotalLength 0
    [field, bytes ": ", qEncodeValue (trimSpace val), [13, 10]]).1

/-- Header.WriteTo from header.go: every field except Bcc, one folded
line per value. -/
def Header.writeTo (h : Header) : List Nat :=
  (h.map (fun e =>
    if e.1 == bytes "Bcc" then []
    else (e.2.map (fun val => headerLine e.1 val)).flatten)).flatten

/-! ## Quoted-printable codec (model of mime/quotedprintable) -/

/-- Split a byte stream into its CRLF-separated lines. -/
def splitCRLF : List Nat → List (List Nat)
  | [] => [[]]
  | [b] => [[b]]
  | b :: c :: rest =>
    if b == 13 && c == 10 then [] :: splitCRLF rest
    else
      match splitCRLF (c :: rest) with
      | [] => [[b]]
      | l :: ls => (b :: l) :: ls

/-- Join lines with CRLF separators. -/
def joinCRLF : List (List Nat) → List Nat
  | [] => []
  | [l] => l
  | l :: ls => l ++ [13, 10] ++ joinCRLF ls

/-- A byte the quoted-printable writer passes through unescaped:
printable ASCII other than `=`, plus space and tab. -/
def qpPlain (b : Nat) : Bool :=
  (33 ≤ b && b ≤ 126 && b != 61) || b == 32 || b == 9

/-- The three-byte `=XX` escape of one body byte. -/
def qpEscape (b : Nat) : List Nat :=
  [61, upperHexDigit (b / 16), upperHexDigit (b % 16)]

/-- One encoded atom: the byte itself when passed through, else `=XX`. -/
def qpAtom (b : Nat) : List Nat :=
  if qpPlain b then [b] else qpEscape b

/-- The atoms of one body line: every byte encodes independently except
that a trailing space or tab is escaped (the writer's checkLastByte). -/
def qpLineAtoms (l : List Nat) : List (List Nat) :=
  match l.getLast? with
  | none => []
  | some last =>
    (l.dropLast.map qpAtom) ++
      [if last == 32 || last == 9 then qpEscape last else qpAtom last]

/-- Does the quoted-printable writer insert a soft line break before this
atom at this column?  (Plain bytes break at column 75, escapes when fewer
than 3 columns remain before 75.) -/
def qpBreakCond (atom : List Nat) (col : Nat) : Bool :=
  (atom.length == 1 && col == 75) || (atom.length == 3 && 73 ≤ col)

/-- The soft-wrapping pass of the quoted-printable writer over the atoms
of one line: emit atoms left to right, inserting `=CRLF` soft breaks. -/
def qpWrapAtoms : List (List Nat) → Nat → List Nat
  | [], _ => []
  | atom :: rest, col =>
    if qpBreakCond atom col then
      [61, 13, 10] ++ atom ++ qpWrapAtoms rest atom.length
    else
      atom ++ qpWrapAtoms rest (col + atom.length)

/-- quotedprintable.Writer on a whole body (written in one call, then
closed), for bodies in CRLF line discipline: each line's atoms are
soft-wrapped, and lines are joined by hard CRLFs. -/
def qpEncodeBody (body : List Nat) : List Nat :=
  joinCRLF ((splitCRLF body).map (fun l => qpWrapAtoms (qpLineAtoms l) 0))

/-- Is this byte discarded from a line's right end by the
quoted-printable reader (space, tab, CR, LF)? -/
def rtrimWS (l : List Nat) : List Nat :=
  (l.reverse.dropWhile isASCIISpace).reverse

def hexDigitVal (b : Nat) : Option Nat :=
  if 48 ≤ b && b ≤ 57 then some (b - 48)
  else if 65 ≤ b && b ≤ 70 then some (b - 55)
  else if 97 ≤ b && b ≤ 102 then some (b - 87)
  else none

/-- Decode the `=XX` escapes of one (already right-trimmed) encoded line. -/
def qpDecodeLineBytes : List Nat → Option (List Nat)
  | [] => some []
  | b :: rest =>
    if b == 61 then
      match rest with
      | h1 :: h2 :: rest2 =>
        match hexDigitVal h1, hexDigitVal h2 with
        | some v1, some v2 =>
          match qpDecodeLineBytes rest2 with
          | some tail => some ((16 * v1 + v2) :: tail)
          | none => none
        | _, _ => none
      | _ => none
    else
      match qpDecodeLineBytes rest with
      | some tail => some (b :: tail)
      | none => none

/-- quotedprintable.Reader, line at a time: right-trim whitespace; a line
whose trimmed form ends in `=` is a soft break (valid only when the `=`
is directly followed by the line ending, or ends the input); otherwise
decode the trimmed content and restore the line ending. -/
def qpDecodeLoop : Nat → List Nat → Option (List Nat)
  | _, [] => some []
  | 0, _ => none
  | fuel + 1, s =>
    match s.dropWhile (fun b => b != 10) with
    | [] =>
      if (rtrimWS (s.takeWhile (fun b => b != 10))).getLast? == some 61 then
        if s.takeWhile (fun b => b != 10) ==
              rtrimWS (s.takeWhile (fun b => b != 10)) &&
            (rtrimWS (s.takeWhile (fun b => b != 10))).length > 1 then
          qpDecodeLineBytes (rtrimWS (s.takeWhile (fun b => b != 10))).dropLast
        else none
      else qpDecodeLineBytes (rtrimWS (s.takeWhile (fun b => b != 10)))
    | _ :: rest' =>
      let line := s.takeWhile (fun b => b != 10)
      let trimmed := rtrimWS line
      let stripped := (line ++ [10]).drop trimmed.length
      let lineEnd : List Nat :=
        if line.getLast? == some 13 then [13, 10] else [10]
      if trimmed.getLast? == some 61 then
        if stripped.take 1 == [10] ||
           stripped.take 2 == [13, 10] then
          match qpDecodeLineBytes trimmed.dropLast, qpDecodeLoop fuel rest' with
          | some here, some there => some (here ++ there)
          | _, _ => none
        else none
      else
        match qpDecodeLineBytes trimmed, qpDecodeLoop fuel rest' with
        | some here, some there => some (here ++ lineEnd ++ there)
        | _, _ => none

/-- quotedprintable.Reader over a whole stream. -/
def qpDecodeBody (s : List Nat) : Option (List Nat) :=
  qpDecodeLoop (s.length + 1) s

/-! ## Base64 codec (model of encoding/base64) and the base64Writer fold -/

def b64Char (n : Nat) : Nat :=
  if n < 26 then 65 + n
  else if n < 52 then 97 + (n - 26)
  else if n < 62 then 48 + (n - 52)
  else if n == 62 then 43
  else 47

/-- base64.StdEncoding encoding with `=` padding. -/
def b64Encode : List Nat → List Nat
  | b1 :: b2 :: b3 :: rest =>
    b64Char (b1 / 4) :: b64Char ((b1 % 4) * 16 + b2 / 16) ::
    b64Char ((b2 % 16) * 4 + b3 / 64) :: b64Char (b3 % 64) :: b64Encode rest
  | [b1, b2] =>
    [b64Char (b1 / 4), b64Char ((b1 % 4) * 16 + b2 / 16),
     b64Char ((b2 % 16) * 4), 61]
  | [b1] =>
    [b64Char (b1 / 4), b64Char ((b1 % 4) * 16), 61, 61]
  | [] => []

/-- The hard-wrapping loop of base64Writer.Write from utilities.go:
break at exactly the limit with CRLF and no indentation.  Fuel-bounded;
the wrapper passes sufficient fuel for a positive limit. -/
def b64FoldLoop (maxLineLen : Nat) : Nat → Nat → List Nat → List Nat
  | 0, _, p => p
  | fuel + 1, cur, p =>
    if p.length + cur > maxLineLen then
      p.take (maxLineLen - cur) ++ [13, 10] ++
        b64FoldLoop maxLineLen fuel 0 (p.drop (maxLineLen - cur))
    else p

/-- base64Writer.Write fed the whole encoded stream from column `cur`. -/
def b64Fold (maxLineLen cur : Nat) (p : List Nat) : List Nat :=
  b64FoldLoop maxLineLen (p.length + 1) cur p

def b64DigitVal (b : Nat) : Option Nat :=
  if 65 ≤ b && b ≤ 90 then some (b - 65)
  else if 97 ≤ b && b ≤ 122 then some (b - 97 + 26)
  else if 48 ≤ b && b ≤ 57 then some (b - 48 + 52)
  else if b == 43 then some 62
  else if b == 47 then some 63
  else none

/-- base64.StdEncoding decoding of a newline-free stream. -/
def b64DecodeCore : List Nat → Option (List Nat)
  | [] => some []
  | [c1, c2, 61, 61] =>
    match b64DigitVal c1, b64DigitVal c2 with
    | some v1, some v2 => some [v1 * 4 + v2 / 16]
    | _, _ => none
  | [c1, c2, c3, 61] =>
    match b64DigitVal c1, b64DigitVal c2, b64DigitVal c3 with
    | some v1, some v2, some v3 =>
      some [v1 * 4 + v2 / 16, (v2 % 16) * 16 + v3 / 4]
    | _, _, _ => none
  | c1 :: c2 :: c3 :: c4 :: rest =>
    match b64DigitVal c1, b64DigitVal c2, b64DigitVal c3, b64DigitVal c4 with
    | some v1, some v2, some v3, some v4 =>
      match b64DecodeCore rest with
      | some tail =>
        some ([v1 * 4 + v2 / 16, (v2 % 16) * 16 + v3 / 4, (v3 % 4) * 64 + v4] ++ tail)
      | none => none
    | _, _, _, _ => none
  | _ => none

/-- base64.NewDecoder: CR and LF bytes are skipped, then strict decode. -/
def b64Decode (s : List Nat) : Option (List Nat) :=
  b64DecodeCore (s.filter (fun b => b != 13 && b != 10))

/-! ## Message tree model (message.go) -/

/-- Message: header plus preamble, epilogue, and the three payload fields
Parts, SubMessage, Body (message.go). -/
inductive Msg : Type where
  | mk : Header → List Nat → List Nat → List Msg → Option Msg → List Nat → Msg

namespace Msg

def header : Msg → Header | .mk h _ _ _ _ _ => h
def preamble : Msg → List Nat | .mk _ p _ _ _ _ => p
def epilogue : Msg → List Nat | .mk _ _ e _ _ _ => e
def parts : Msg → List Msg | .mk _ _ _ ps _ _ => ps
def subMessage : Msg → Option Msg | .mk _ _ _ _ s _ => s
def body : Msg → List Nat | .mk _ _ _ _ _ b => b

end Msg

/-- The two failure modes of Header.ContentType: the field is absent
(ErrHeadersMissingContentType) or mime.ParseMediaType failed. -/
inductive CTErr : Type where
  | missing : CTErr
  | malformed : CTErr
deriving DecidableEq

/-- Header.ContentType from header.go: parse the Content-Type field,
report absence as the distinct missing-content-type error. -/
def Header.contentType (h : Header) : Except CTErr (List Nat × Params) :=
  let ct := h.get (bytes "Content-Type")
  if ct.length > 0 then
    match parseMediaType ct with
    | some r => .ok r
    | none => .error .malformed
  else .error .missing

/-- Message.HasParts: media type has prefix "multipart" (false on any
ContentType error). -/
def Msg.hasParts (m : Msg) : Bool :=
  match m.header.contentType with
  | .ok (mt, _) => List.isPrefixOf (bytes "multipart") mt
  | .error _ => false

/-- Message.HasSubMessage: media type has prefix "message" (false on any
ContentType error). -/
def Msg.hasSubMessage (m : Msg) : Bool :=
  match m.header.contentType with
  | .ok (mt, _) => List.isPrefixOf (bytes "message") mt
  | .error _ => false

/-- Message.HasBody: the media type has neither prefix; a missing
Content-Type falls through with an empty media type, any other
ContentType error returns false. -/
def Msg.hasBody (m : Msg) : Bool :=
  match m.header.contentType with
  | .ok (mt, _) =>
    !(List.isPrefixOf (bytes "multipart") mt) &&
    !(List.isPrefixOf (bytes "message") mt)
  | .error .missing => true
  | .error .malformed => false

/-- The tagged view returned by Message.Payload. -/
inductive Payload : Type where
  | parts : List Msg → Payload
  | sub : Option Msg → Payload
  | body : List Nat → Payload

/-- Message.Payload: Parts when HasParts, else SubMessage when
HasSubMessage, else Body. -/
def Msg.payload (m : Msg) : Payload :=
  if m.hasParts then .parts m.parts
  else if m.hasSubMessage then .sub m.subMessage
  else .body m.body

/-! ## Parser building blocks (parser.go and the net/mail, net/textproto,
mime/multipart machinery it drives) -/

/-- leftTrimReader from utilities.go: discard leading ASCII whitespace. -/
def leftTrim (s : List Nat) : List Nat := s.dropWhile isASCIISpace

/-- One physical line including its LF terminator (ReadSlice-style). -/
def takeLineInc (s : List Nat) : List Nat × List Nat :=
  match s.findIdx? (fun b => b == 10) with
  | some i => (s.take (i + 1), s.drop (i + 1))
  | none => (s, [])

/-- Strip one trailing LF and then one trailing CR from a physical line. -/
def dropLineEnd (l : List Nat) : List Nat :=
  let l1 := if l.getLast? == some 10 then l.dropLast else l
  if l1.getLast? == some 13 then l1.dropLast else l1

def isSpTab (b : Nat) : Bool := b == 32 || b == 9

/-- Trim leading and trailing spaces and tabs (textproto trim). -/
def trimSpTab (l : List Nat) : List Nat :=
  ((l.dropWhile isSpTab).reverse.dropWhile isSpTab).reverse

/-- Gather the continuation lines (starting with space or tab) that
extend the current logical header line. -/
def collectContinuations : Nat → List Nat → List (List Nat) × List Nat
  | 0, s => ([], s)
  | fuel + 1, s =>
    match s with
    | b :: _ =>
      if isSpTab b then
        let r := takeLineInc s
        let rest := collectContinuations fuel r.2
        (dropLineEnd r.1 :: rest.1, rest.2)
      else ([], s)
    | [] => ([], s)

def splitAtColon (l : List Nat) : Option (List Nat × List Nat) :=
  match l.findIdx? (fun b => b == 58) with
  | some i => some (l.take i, (l.drop (i + 1)).dropWhile isSpTab)
  | none => none

/-- textproto.ReadMIMEHeader: logical lines (with continuations joined by
a single space) split at the first colon, keys canonicalized, values
appended in encounter order; the blank line ends the header.  Reaching
the end of input before the blank line, or a line without a colon, is an
error. -/
def readMIMEHeader : Nat → List Nat → Header → Option (Header × List Nat)
  | 0, _, _ => none
  | _ + 1, [], _ => none
  | fuel + 1, s, acc =>
    if (dropLineEnd (takeLineInc s).1).isEmpty then some (acc, (takeLineInc s).2)
    else
      match splitAtColon (trimSpTab (dropLineEnd (takeLineInc s).1) ++
          ((collectContinuations ((takeLineInc s).2.length + 1)
              (takeLineInc s).2).1.map (fun c => 32 :: trimSpTab c)).flatten) with
      | none => none
      | some (k, v) =>
        if k.isEmpty then none
        else readMIMEHeader fuel
          (collectContinuations ((takeLineInc s).2.length + 1)
            (takeLineInc s).2).2
          (acc.add k v)

/-- Parse the Q- or B-encoded payload of one RFC 2047 encoded word. -/
def decodeWordPayload (enc : Nat) (payload : List Nat) : Option (List Nat) :=
  if enc == 113 || enc == 81 then
    -- Q-encoding: underscore is space, =XX is a hex escape
    qpDecodeLineBytes (payload.map (fun b => if b == 95 then 32 else b))
  else if enc == 98 || enc == 66 then
    b64Decode payload
  else none

/-- Parse one encoded word `=?charset?enc?payload?=` at the head. -/
def parseEncodedWord (s : List Nat) : Option (List Nat × List Nat) :=
  match s with
  | 61 :: 63 :: rest =>
    let charset := rest.takeWhile (fun b => b != 63)
    let r1 := rest.dropWhile (fun b => b != 63)
    match r1 with
    | 63 :: enc :: 63 :: r2 =>
      if charset.isEmpty then none
      else
        let payload := r2.takeWhile (fun b => b != 63)
        let r3 := r2.dropWhile (fun b => b != 63)
        match r3 with
        | 63 :: 61 :: r4 =>
          match decodeWordPayload enc payload with
          | some decoded => some (decoded, r4)
          | none => none
        | _ => none
    | _ => none
  | _ => none

/-- decodeRFC2047 from parser.go (model of mime.WordDecoder.DecodeHeader):
decode each well-formed encoded word in place, leave everything else. -/
def decodeRFC2047Loop : Nat → List Nat → List Nat
  | 0, s => s
  | _ + 1, [] => []
  | fuel + 1, 61 :: 63 :: rest =>
    match parseEncodedWord (61 :: 63 :: rest) with
    | some (decoded, rest2) => decoded ++ decodeRFC2047Loop fuel rest2
    | none => 61 :: decodeRFC2047Loop fuel (63 :: rest)
  | fuel + 1, b :: rest => b :: decodeRFC2047Loop fuel rest

def decodeRFC2047 (s : List Nat) : List Nat := decodeRFC2047Loop (s.length + 1) s

/-- contentReader from parser.go: an exactly-matching "quoted-printable"
or case-insensitive "base64" Content-Transfer-Encoding selects the
decoder and deletes the header field. -/
def contentReader (h : Header) (body : List Nat) :
    Header × Except Unit (List Nat) :=
  if h.get (bytes "Content-Transfer-Encoding") == bytes "quoted-printable" then
    (h.del (bytes "Content-Transfer-Encoding"),
     match qpDecodeBody body with
     | some d => .ok d
     | none => .error ())
  else if toLower (h.get (bytes "Content-Transfer-Encoding")) == bytes "base64" then
    (h.del (bytes "Content-Transfer-Encoding"),
     match b64Decode body with
     | some d => .ok d
     | none => .error ())
  else (h, .ok body)

/-- First index at which the pattern occurs (bytes.Index). -/
def firstIndexOfSeq : List Nat → List Nat → Option Nat
  | [], pat => if pat.isEmpty then some 0 else none
  | b :: rest, pat =>
    if pat.isPrefixOf (b :: rest) then some 0
    else (firstIndexOfSeq rest pat).map (· + 1)

/-- Walk an index back over the contiguous ASCII whitespace before it
(the `for idx > 0 && isASCIISpace(peek[idx-1])` loop of preambleReader). -/
def backOverWS (s : List Nat) : Nat → Nat
  | 0 => 0
  | i + 1 =>
    if (s[i]?).any isASCIISpace then backOverWS s i
    else i + 1

/-- One preambleReader.Read call (utilities/parser.go) on a stream, with
a destination buffer of the given size: peek, look for the dash-boundary,
and either pass bytes through (leaving a margin for a marker split across
reads), stop just before the marker, or report end-of-data.  Result:
(bytes read, remaining stream, end-of-data flag). -/
def preambleRead (chunk : Nat) (s bd : List Nat) : List Nat × List Nat × Bool :=
  if chunk == 0 then ([], s, false)
  else
    match firstIndexOfSeq (s.take chunk) bd with
    | none =>
      if s.isEmpty then ([], [], true)
      else (s.take (goMax 1 ((s.take chunk).length - (bd.length + 2))),
            s.drop (goMax 1 ((s.take chunk).length - (bd.length + 2))), false)
    | some idx =>
      if backOverWS (s.take chunk) idx == 0 then ([], s, true)
      else (s.take (backOverWS (s.take chunk) idx),
            s.drop (backOverWS (s.take chunk) idx), true)

/-- Repeated preambleReader.Read calls until end-of-data (the shape of
ioutil.ReadAll), collecting everything read. -/
def preambleReadAll : Nat → Nat → List Nat → List Nat → List Nat
  | 0, _, _, _ => []
  | fuel + 1, chunk, s, bd =>
    if (preambleRead chunk s bd).2.2 then (preambleRead chunk s bd).1
    else (preambleRead chunk s bd).1 ++
      preambleReadAll fuel chunk (preambleRead chunk s bd).2.1 bd

/-- The net effect of readPreamble/preambleReader on a whole stream:
everything strictly before the first `--boundary` occurrence, excluding
the contiguous whitespace run just before it; the remainder (from that
whitespace on) is left for the multipart reader.  A stream without the
marker is consumed whole. -/
def preambleSplit (s dashBoundary : List Nat) : List Nat × List Nat :=
  match firstIndexOfSeq s dashBoundary with
  | none => (s, [])
  | some i =>
    let j := backOverWS s i
    (s.take j, s.drop j)

/-- Classify the bytes at a line start against the dash-boundary:
a final `--b--` line (returning the rest after it), a `--b` delimiter
line (returning the rest after it), or neither. -/
def classifyBoundaryLine (r b : List Nat) : Option (Bool × List Nat) :=
  let dash := bytes "--" ++ b
  if (dash ++ bytes "--").isPrefixOf r then
    let a := (r.drop (dash.length + 2)).dropWhile isSpTab
    if a.isEmpty then some (true, [])
    else if [13, 10].isPrefixOf a then some (true, a.drop 2)
    else none
  else if dash.isPrefixOf r then
    let a := (r.drop dash.length).dropWhile isSpTab
    if [13, 10].isPrefixOf a then some (false, a.drop 2)
    else none
  else none

/-- The multipart reader's scan for the first boundary line: skip junk
lines; end of input before any boundary is a reader error. -/
inductive ScanOutcome : Type where
  | eofFail : ScanOutcome
  | term : List Nat → ScanOutcome
  | delim : List Nat → ScanOutcome

def mpScanFirst : Nat → List Nat → List Nat → ScanOutcome
  | 0, _, _ => .eofFail
  | _ + 1, [], _ => .eofFail
  | fuel + 1, s, b =>
    match classifyBoundaryLine s b with
    | some (true, rest) => .term rest
    | some (false, rest) => .delim rest
    | none => mpScanFirst fuel (takeLineInc s).2 b

/-- Scan a part's content for the CRLF-prefixed boundary line ending it:
the content bytes, and the rest starting at the boundary line (none when
the content runs to end of input). -/
def mpFindPartEnd : List Nat → List Nat → List Nat × Option (List Nat)
  | s, b =>
    if h : ([13, 10] ++ bytes "--" ++ b).isPrefixOf s ∧
        (classifyBoundaryLine (s.drop 2) b).isSome then
      ([], some (s.drop 2))
    else match s with
      | [] => ([], none)
      | b0 :: rest =>
        let r := mpFindPartEnd rest b
        (b0 :: r.1, r.2)

/-- readEpilogue from parser.go: everything that remains, with trailing
ASCII whitespace removed. -/
def readEpilogue (s : List Nat) : List Nat := rtrimWS s

/-- The per-part scan of the multipart reader: part headers, then content
up to the CRLF-prefixed boundary line.  Returns the raw
(header, content) segments in order and the bytes after the final
boundary line; a failed header parse or a missing further boundary stops
the scan (the segments found so far are kept, matching the lenient
readParts loop, and a part whose content runs to end of input is still
produced before the scan stops). -/
def mpSegLoop : Nat → List Nat → List Nat → List (Header × List Nat) × List Nat
  | 0, _, _ => ([], [])
  | loopFuel + 1, s, b =>
    match readMIMEHeader (s.length + 1) s [] with
    | none => ([], [])
    | some (phdr, pbodyStart) =>
      let pe := mpFindPartEnd pbodyStart b
      match pe.2 with
      | none => ([(phdr, pe.1)], [])
      | some atLine =>
        match classifyBoundaryLine atLine b with
        | some (true, rest) => ([(phdr, pe.1)], rest)
        | some (false, rest) =>
          let r := mpSegLoop loopFuel rest b
          ((phdr, pe.1) :: r.1, r.2)
        | none => ([(phdr, pe.1)], [])

/-- multipart.Reader, whole-stream view: find the first boundary line,
then extract the raw part segments; the second component is what remains
for the epilogue. -/
def mpExtractParts (s b : List Nat) : List (Header × List Nat) × List Nat :=
  match mpScanFirst (s.length + 1) s b with
  | .eofFail => ([], [])
  | .term rest => ([], rest)
  | .delim rest => mpSegLoop (rest.length + 1) rest b

mutual

/-- ParseMessage from parser.go: trim leading whitespace, read the
header block (mail.ReadMessage), decode RFC 2047 words in every header
value, then parse the body against the header.  Fuel bounds the
message/part nesting depth. -/
def parseMessageFuel : Nat → List Nat → Except Unit Msg
  | 0, _ => .error ()
  | fuel + 1, s =>
    match readMIMEHeader (s.length + 1) (leftTrim s) [] with
    | none => .error ()
    | some (hdr, body) =>
      parseMessageWithHeader fuel
        (hdr.map (fun e => (e.1, e.2.map decodeRFC2047))) body

/-- parseMessageWithHeader from parser.go: decode the transfer encoding
(contentReader), parse the Content-Type, and fill exactly one of Parts,
SubMessage or Body. -/
def parseMessageWithHeader : Nat → Header → List Nat → Except Unit Msg
  | 0, _, _ => .error ()
  | fuel + 1, hdr, bodyRaw =>
    let cr := contentReader hdr bodyRaw
    match cr.2 with
    | .error e => .error e
    | .ok dbody =>
      let h := cr.1
      let ct := h.get (bytes "Content-Type")
      let mtp : Except Unit (List Nat × Params) :=
        if ct.length > 0 then
          match parseMediaType ct with
          | none => .error ()
          | some r => .ok r
        else .ok ([], [])
      match mtp with
      | .error e => .error e
      | .ok (mt, params) =>
        if List.isPrefixOf (bytes "multipart") mt then
          let boundary := paramsGet params (bytes "boundary")
          let ps := preambleSplit dbody (bytes "--" ++ boundary)
          let segs := mpExtractParts ps.2 boundary
          .ok (.mk h ps.1 (readEpilogue segs.2) (readPartsLoop fuel segs.1) none [])
        else if List.isPrefixOf (bytes "message") mt then
          match parseMessageFuel fuel dbody with
          | .error e => .error e
          | .ok sub => .ok (.mk h [] [] [] (some sub) [])
        else .ok (.mk h [] [] [] none dbody)

/-- The readParts loop from parser.go over the extracted raw segments:
a part whose message parse fails is skipped (`continue`), every part
that parses is appended, and the loop never fails.  (Fuel decreases per
part so that the whole parser is structurally recursive on it.) -/
def readPartsLoop : Nat → List (Header × List Nat) → List Msg
  | _, [] => []
  | 0, _ :: _ => []
  | fuel + 1, seg :: rest =>
    match parseMessageWithHeader fuel seg.1 seg.2 with
    | .error _ => readPartsLoop fuel rest
    | .ok m => m :: readPartsLoop fuel rest

end

/-- ParseMessage with fuel ample for any input: the nesting depth of a
message is bounded by its byte length. -/
def parseMessage (s : List Nat) : Except Unit Msg :=
  parseMessageFuel (s.length + 1) s

/-! ## Serializer (message.go: WriteTo, writeParts, writeBody) -/

/-- writeBody/writeText/writeBase64 from message.go: raw body after a bare
CRLF when a Content-Transfer-Encoding is already set or no Content-Type
exists; otherwise quoted-printable for a raw Content-Type value starting
"text", else folded base64. -/
def writeBodyOut (h : Header) (body : List Nat) : List Nat :=
  let contentType := h.get (bytes "Content-Type")
  if contentType.length > 0 && !(h.isSet (bytes "Content-Transfer-Encoding")) then
    if List.isPrefixOf (bytes "text") contentType then
      bytes "Content-Transfer-Encoding: quoted-printable" ++ [13, 10, 13, 10] ++
        qpEncodeBody body
    else
      bytes "Content-Transfer-Encoding: base64" ++ [13, 10, 13, 10] ++
        b64Fold MaxBodyLineLength 0 (b64Encode body)
  else [13, 10] ++ body

mutual

/-- Message.WriteTo from message.go: header, then the payload branch
chosen from the parsed Content-Type (a malformed Content-Type, or a
message node without a sub-message, is an error). -/
def msgWriteTo : Msg → Except Unit (List Nat)
  | .mk h pre epi parts sub body =>
    match Header.contentType h with
    | .error .malformed => .error ()
    | .error .missing => .ok (Header.writeTo h ++ writeBodyOut h body)
    | .ok (mt, params) =>
      if List.isPrefixOf (bytes "multipart") mt then
        match msgWritePartList parts (paramsGet params (bytes "boundary")) with
        | .error e => .error e
        | .ok inner =>
          .ok (Header.writeTo h ++ [13, 10] ++
            (if pre.length > 0 then pre ++ [13, 10] else []) ++ inner ++
            [13, 10] ++ bytes "--" ++ paramsGet params (bytes "boundary") ++
            bytes "--" ++ [13, 10] ++
            (if epi.length > 0 then epi ++ [13, 10] else []))
      else if List.isPrefixOf (bytes "message") mt then
        match sub with
        | none => .error ()
        | some sm =>
          match msgWriteTo sm with
          | .error e => .error e
          | .ok smb => .ok (Header.writeTo h ++ [13, 10] ++ smb)
      else .ok (Header.writeTo h ++ writeBodyOut h body)

/-- The parts loop of Message.writeParts: each part preceded by a CRLF,
the dash-boundary delimiter, and a CRLF. -/
def msgWritePartList : List Msg → List Nat → Except Unit (List Nat)
  | [], _ => .ok []
  | p :: rest, b =>
    match msgWriteTo p with
    | .error e => .error e
    | .ok pb =>
      match msgWritePartList rest b with
      | .error e => .error e
      | .ok restb =>
        .ok (([13, 10] ++ bytes "--" ++ b ++ [13, 10]) ++ pb ++ restb)

end

/-- Spec-side reading of "the parsed media type has this prefix": false
whenever ContentType does not parse. -/
def specMediaTypeStartsWith (h : Header) (p : String) : Bool :=
  match h.contentType with
  | .ok (mt, _) => List.isPrefixOf (bytes p) mt
  | .error _ => false

/-- Does ContentType fail with a genuine parse error (as opposed to the
recoverable missing-field condition)? -/
def ctMalformed (h : Header) : Bool :=
  match h.contentType with
  | .error .malformed => true
  | _ => false

/-- The claim's composition: serialize a message tree, then parse the
bytes back. -/
def roundTrip (m : Msg) : Except Unit Msg :=
  match msgWriteTo m with
  | .error e => .error e
  | .ok out => parseMessage out

/-- The message built by NewPartText (constructor.go): a text/plain part
with the given content bytes. -/
def textPartMsg (bs : List Nat) : Msg :=
  Msg.mk [(bytes "Content-Type", [bytes "text/plain; charset=\"UTF-8\""])]
    [] [] [] none bs

/-- The tree NewPartMultipart "mixed" builds around a single NewPartText
part, at a fixed boundary. -/
def mixedSingleTextMsg (boundary : String) (bs : List Nat) : Msg :=
  Msg.mk [(bytes "Content-Type",
      [bytes "multipart/mixed; boundary=\"" ++ bytes boundary ++ bytes "\""])]
    [] [] [textPartMsg bs] none []

/-- The serialized header block of a NewPartText part (byte values of
"Content-Type: text/plain; charset=\"UTF-8\"\r\n" followed by
"Content-Transfer-Encoding: quoted-printable\r\n" and the blank line). -/
def textPartWireHead : List Nat :=
  [67, 111, 110, 116, 101, 110, 116, 45, 84, 121, 112, 101, 58, 32, 116, 101,
   120, 116, 47, 112, 108, 97, 105, 110, 59, 32, 99, 104, 97, 114, 115, 101,
   116, 61, 34, 85, 84, 70, 45, 56, 34, 13, 10, 67, 111, 110, 116, 101, 110,
   116, 45, 84, 114, 97, 110, 115, 102, 101, 114, 45, 69, 110, 99, 111, 100,
   105, 110, 103, 58, 32, 113, 117, 111, 116, 101, 100, 45, 112, 114, 105,
   110, 116, 97, 98, 108, 101, 13, 10, 13, 10]

/-- The bytes of textPartWireHead after its first header line. -/
def textPartWireTail : List Nat :=
  [67, 111, 110, 116, 101, 110, 116, 45, 84, 114, 97, 110, 115, 102, 101,
   114, 45, 69, 110, 99, 111, 100, 105, 110, 103, 58, 32, 113, 117, 111,
   116, 101, 100, 45, 112, 114, 105, 110, 116, 97, 98, 108, 101, 13, 10,
   13, 10]

end GoEmail

namespace GoEmail

/-- C3: when the cryptographic random source fails, genMessageID does NOT
propagate the failure: it returns an empty id with a nil error
(`return "", nil`), and Header.Save consequently succeeds, storing the
empty Message-Id "<>" — the code swallows the failure the claim (and the
method's own documentation) requires it to propagate. -/
theorem genMessageID_swallows_random_failure :
    (genMessageID (.error ()) (.ok (bytes "host.example")) 991 123456).1 = [] ∧
    (genMessageID (.error ()) (.ok (bytes "host.example")) 991 123456).2 = none ∧
    Header.save [] (.error ()) (.ok (bytes "host.example")) 991 123456
        (bytes "01 Jan 26 00:00 UTC") =
      .ok [(bytes "Message-Id", [bytes "<>"]),
           (bytes "Date", [bytes "01 Jan 26 00:00 UTC"]),
           (bytes "Mime-Version", [bytes "1.0"])] := by
  refine ⟨rfl, rfl, rfl⟩

theorem endCol_append (a b : List Nat) (c : Nat) :
    endCol (a ++ b) c = endCol b (endCol a c) := by
  induction a generalizing c with
  | nil => rfl
  | cons x rest ih =>
    by_cases h10 : x = 10 <;> by_cases h13 : x = 13 <;>
      simp [endCol, h10, h13, ih]

theorem endCol_le (l : List Nat) (c : Nat) : endCol l c ≤ c + l.length := by
  induction l generalizing c with
  | nil => simp [endCol]
  | cons x rest ih =>
    by_cases h10 : x = 10 <;> by_cases h13 : x = 13 <;>
      simp only [endCol, h10, h13, if_true, if_false, List.length_cons] <;>
      first
        | (exact le_trans (ih 0) (by omega))
        | (exact le_trans (ih c) (by omega))
        | (exact le_trans (ih (c + 1)) (by omega))
        | omega

theorem maxCol_le (l : List Nat) (c : Nat) : maxCol l c ≤ c + l.length := by
  induction l generalizing c with
  | nil => simp [maxCol]
  | cons x rest ih =>
    by_cases h10 : x = 10 <;> by_cases h13 : x = 13 <;>
      simp only [maxCol, h10, h13, if_true, if_false, List.length_cons]
    all_goals
      first
        | (exact Nat.max_le.mpr ⟨by omega, le_trans (ih 0) (by omega)⟩)
        | (exact le_trans (ih c) (by omega))
        | (exact le_trans (ih (c + 1)) (by omega))
        | omega

theorem maxCol_append_le (a b : List Nat) (c : Nat) :
    maxCol (a ++ b) c ≤ Nat.max (maxCol a c) (maxCol b (endCol a c)) := by
  induction a generalizing c with
  | nil => simp [maxCol, endCol]
  | cons x rest ih =>
    by_cases h10 : x = 10 <;> by_cases h13 : x = 13 <;>
      simp only [List.cons_append, maxCol, endCol, h10, h13, if_true, if_false,
        List.append_eq]
    · omega
    · exact Nat.max_le.mpr
        ⟨le_max_of_le_left (le_max_left _ _),
         le_trans (ih 0) (max_le_max (le_max_right _ _) (le_refl _))⟩
    · exact ih c
    · exact ih (c + 1)

theorem lastIndexOfByte_lt_length (l : List Nat) (b i : Nat)
    (h : lastIndexOfByte l b = some i) : i < l.length := by
  induction l generalizing i with
  | nil => cases h
  | cons x rest ih =>
    simp only [lastIndexOfByte] at h
    rcases hfind : lastIndexOfByte rest b with _ | j
    · rw [hfind] at h
      by_cases hx : (x == b) = true
      · rw [if_pos hx] at h
        cases h
        simp
      · rw [if_neg hx] at h
        cases h
    · rw [hfind] at h
      cases h
      have := ih j hfind
      simp only [List.length_cons]
      omega

theorem hwSplit_le (maxLineLen cur : Nat) (p : List Nat) :
    hwSplit maxLineLen cur p ≤ maxLineLen - cur := by
  unfold hwSplit
  rcases hfind : lastIndexOfByte (p.take (maxLineLen - cur)) 32 with _ | i
  · exact le_refl _
  · show (if 0 < i then i else maxLineLen - cur) ≤ maxLineLen - cur
    by_cases hi : 0 < i
    · rw [if_pos hi]
      have := lastIndexOfByte_lt_length _ _ _ hfind
      rw [List.length_take] at this
      omega
    · rw [if_neg hi]

theorem hwSplit_eq_zero (maxLineLen cur : Nat) (p : List Nat)
    (h : hwSplit maxLineLen cur p = 0) : maxLineLen - cur = 0 := by
  unfold hwSplit at h
  rcases hfind : lastIndexOfByte (p.take (maxLineLen - cur)) 32 with _ | i
  · rw [hfind] at h; exact h
  · rw [hfind] at h
    have h' : (if 0 < i then i else maxLineLen - cur) = 0 := h
    by_cases hi : 0 < i
    · rw [if_pos hi] at h'; omega
    · rw [if_neg hi] at h'; exact h'

theorem hwLoop_bound (maxLineLen : Nat) (h2 : 2 ≤ maxLineLen) :
    ∀ fuel p cur s, cur ≤ maxLineLen → s ≤ cur →
      p.length + (if maxLineLen ≤ cur then 1 else 0) + 1 ≤ fuel →
      maxCol (hwLoop maxLineLen fuel cur p).1 s ≤ maxLineLen ∧
      endCol (hwLoop maxLineLen fuel cur p).1 s ≤ (hwLoop maxLineLen fuel cur p).2 ∧
      (hwLoop maxLineLen fuel cur p).2 ≤ maxLineLen := by
  intro fuel
  induction fuel with
  | zero =>
    intro p cur s _ _ hf
    omega
  | succ fuel ih =>
    intro p cur s hcur hs hf
    by_cases hover : p.length + cur > maxLineLen
    · simp only [hwLoop, if_pos hover]
      set t := hwSplit maxLineLen cur p with htdef
      have ht_le : t ≤ maxLineLen - cur := hwSplit_le maxLineLen cur p
      have hcurt : cur + t ≤ maxLineLen := by omega
      have hfuel' : (p.drop t).length + (if maxLineLen ≤ 1 then 1 else 0) + 1 ≤ fuel := by
        rw [List.length_drop]
        rw [if_neg (by omega : ¬ maxLineLen ≤ 1)]
        by_cases hful : maxLineLen ≤ cur
        · rw [if_pos hful] at hf
          omega
        · have ht1 : 1 ≤ t := by
            rcases Nat.eq_zero_or_pos t with h0 | h1
            · exact absurd (hwSplit_eq_zero maxLineLen cur p h0) (by omega)
            · exact h1
          rw [if_neg hful] at hf
          omega
      obtain ⟨ihmax, ihend, ihcur⟩ :=
        ih (p.drop t) 1 1 (by omega) (le_refl 1) hfuel'
      set r := hwLoop maxLineLen fuel 1 (p.drop t) with hr
      have htake_len : (p.take t).length ≤ t := by
        rw [List.length_take]; exact min_le_left _ _
      refine ⟨?_, ?_, ihcur⟩
      · have h1 : maxCol (p.take t) s ≤ maxLineLen := by
          have := maxCol_le (p.take t) s
          omega
        have hend1 : endCol (p.take t) s ≤ maxLineLen := by
          have := endCol_le (p.take t) s
          omega
        have hmid : ∀ e, e ≤ maxLineLen →
            maxCol ([13, 10, 32] ++ r.1) e ≤ maxLineLen := by
          intro e he
          have hform : maxCol ([13, 10, 32] ++ r.1) e = Nat.max e (maxCol r.1 1) := by
            simp [maxCol]
          rw [hform]
          exact Nat.max_le.mpr ⟨he, ihmax⟩
        simp only [List.append_assoc]
        calc maxCol (p.take t ++ ([13, 10, 32] ++ r.1)) s
            ≤ Nat.max (maxCol (p.take t) s)
              (maxCol ([13, 10, 32] ++ r.1) (endCol (p.take t) s)) :=
              maxCol_append_le _ _ _
          _ ≤ maxLineLen :=
              Nat.max_le.mpr ⟨h1, hmid _ hend1⟩
      · rw [endCol_append, endCol_append]
        exact ihend
    · simp only [hwLoop, if_neg hover]
      refine ⟨?_, ?_, by omega⟩
      · have := maxCol_le p s
        omega
      · have := endCol_le p s
        omega

theorem headerWrite_bound (maxLineLen : Nat) (h2 : 2 ≤ maxLineLen)
    (p : List Nat) (cur s : Nat) (hcur : cur ≤ maxLineLen) (hs : s ≤ cur) :
    maxCol (headerWrite maxLineLen cur p).1 s ≤ maxLineLen ∧
    endCol (headerWrite maxLineLen cur p).1 s ≤ (headerWrite maxLineLen cur p).2 ∧
    (headerWrite maxLineLen cur p).2 ≤ maxLineLen := by
  apply hwLoop_bound maxLineLen h2 (2 * p.length + 2) p cur s hcur hs
  by_cases h : maxLineLen ≤ cur <;> simp [h] <;> omega

theorem headerWriteAll_bound (maxLineLen : Nat) (h2 : 2 ≤ maxLineLen) :
    ∀ (chunks : List (List Nat)) (cur s : Nat), cur ≤ maxLineLen → s ≤ cur →
      maxCol (headerWriteAll maxLineLen cur chunks).1 s ≤ maxLineLen ∧
      endCol (headerWriteAll maxLineLen cur chunks).1 s ≤
        (headerWriteAll maxLineLen cur chunks).2 ∧
      (headerWriteAll maxLineLen cur chunks).2 ≤ maxLineLen := by
  intro chunks
  induction chunks with
  | nil =>
    intro cur s hcur hs
    exact ⟨by simpa [headerWriteAll, maxCol] using le_trans hs hcur,
           by simpa [headerWriteAll, endCol] using hs, hcur⟩
  | cons p rest ih =>
    intro cur s hcur hs
    obtain ⟨h1max, h1end, h1cur⟩ := headerWrite_bound maxLineLen h2 p cur s hcur hs
    obtain ⟨h2max, h2end, h2cur⟩ :=
      ih (headerWrite maxLineLen cur p).2
        (endCol (headerWrite maxLineLen cur p).1 s) h1cur h1end
    simp only [headerWriteAll]
    refine ⟨?_, ?_, h2cur⟩
    · calc maxCol ((headerWrite maxLineLen cur p).1 ++
            (headerWriteAll maxLineLen (headerWrite maxLineLen cur p).2 rest).1) s
          ≤ Nat.max (maxCol (headerWrite maxLineLen cur p).1 s)
            (maxCol (headerWriteAll maxLineLen (headerWrite maxLineLen cur p).2 rest).1
              (endCol (headerWrite maxLineLen cur p).1 s)) := maxCol_append_le _ _ _
        _ ≤ maxLineLen := Nat.max_le.mpr ⟨h1max, h2max⟩
    · rw [endCol_append]
      exact h2end

/-- C8: for every sequence of writes through the header line-folding
writer (which breaks at the last space inside the allowed prefix, hard
breaks at the limit otherwise, emits CRLF plus one indent space, and
continues at column 1), no emitted line of the output exceeds the
configured maximum line length. -/
theorem header_folding_line_bound (maxLineLen : Nat) (chunks : List (List Nat))
    (h2 : 2 ≤ maxLineLen) :
    maxCol (headerWriteAll maxLineLen 0 chunks).1 0 ≤ maxLineLen :=
  (headerWriteAll_bound maxLineLen h2 chunks 0 0 (by omega) (le_refl 0)).1

/-- C8 witness: a concrete overlong header line through the writer at the
configured 998-octet limit. -/
theorem header_folding_line_bound_witness :
    2 ≤ MaxHeaderTotalLength ∧
    maxCol (headerWriteAll MaxHeaderTotalLength 0
      [bytes "Subject", bytes ": ",
       (List.replicate 400 (bytes "word ")).flatten, [13, 10]]).1 0
      ≤ MaxHeaderTotalLength :=
  ⟨by decide,
   header_folding_line_bound MaxHeaderTotalLength
     [bytes "Subject", bytes ": ",
      (List.replicate 400 (bytes "word ")).flatten, [13, 10]] (by decide)⟩

theorem writeTo_eq_filtered (h : Header) :
    Header.writeTo h =
      ((h.filter (fun e => e.1 != bytes "Bcc")).map
        (fun e => (e.2.map (fun val => headerLine e.1 val)).flatten)).flatten := by
  induction h with
  | nil => rfl
  | cons e rest ih =>
    by_cases he : (e.1 == bytes "Bcc") = true <;>
      simp only [Header.writeTo, List.map_cons, List.flatten_cons, List.filter_cons,
        he, bne, Bool.not_true, Bool.not_false, if_true, if_false, ite_true, ite_false] <;>
      simp only [Header.writeTo] at ih
    · exact ih
    · rw [ih]
      simp [bne]

/-- C7: Header.WriteTo serializes one folded "Field: value CRLF" line per
value of every key except Bcc (values trimmed and Q-encoded), and the
Bcc field contributes nothing: the output equals that of the header with
Bcc deleted. -/
theorem header_writeTo_skips_bcc (h : Header) :
    Header.writeTo h = Header.writeTo (h.del (bytes "Bcc")) ∧
    Header.writeTo h =
      ((h.filter (fun e => e.1 != bytes "Bcc")).map
        (fun e => (e.2.map (fun val => headerLine e.1 val)).flatten)).flatten := by
  refine ⟨?_, writeTo_eq_filtered h⟩
  have hkey : canonicalMIMEHeaderKey (bytes "Bcc") = bytes "Bcc" := by decide
  rw [writeTo_eq_filtered h, writeTo_eq_filtered (h.del (bytes "Bcc"))]
  unfold Header.del
  rw [hkey, List.filter_filter]
  simp

/-- C6 counterexample: the claim ties the serializer's encoding choice to
the parsed media type, but writeBody dispatches on the RAW Content-Type
value's "text" prefix.  With Content-Type "TEXT/plain" the parsed media
type is "text/plain" — a "text/*" media type, which the claim sends to
quoted-printable — yet the code emits base64. -/
theorem writeBody_dispatch_counterexample :
    (parseMediaType (bytes "TEXT/plain")).map (·.1) = some (bytes "text/plain") ∧
    List.isPrefixOf (bytes "text/") (bytes "text/plain") = true ∧
    writeBodyOut [(bytes "Content-Type", [bytes "TEXT/plain"])] (bytes "hi") =
      bytes "Content-Transfer-Encoding: base64" ++ [13, 10, 13, 10] ++
        b64Fold MaxBodyLineLength 0 (b64Encode (bytes "hi")) ∧
    writeBodyOut [(bytes "Content-Type", [bytes "TEXT/plain"])] (bytes "hi") ≠
      bytes "Content-Transfer-Encoding: quoted-printable" ++ [13, 10, 13, 10] ++
        qpEncodeBody (bytes "hi") := by
  refine ⟨by decide, by decide, by decide, by decide⟩

/-- C6 (amended): writeBody's selection keyed on the raw Content-Type
header value rather than the parsed media type — raw body after CRLF when
a Content-Transfer-Encoding is set or there is no Content-Type; for a raw
Content-Type value beginning with "text", the quoted-printable header
line then the quoted-printable-encoded body; for any other Content-Type
value, the base64 header line then the base64 encoding folded at 76
columns. -/
theorem writeBody_dispatch (h : Header) (body : List Nat) :
    (h.isSet (bytes "Content-Transfer-Encoding") = true →
      writeBodyOut h body = [13, 10] ++ body) ∧
    (h.get (bytes "Content-Type") = [] →
      writeBodyOut h body = [13, 10] ++ body) ∧
    (h.isSet (bytes "Content-Transfer-Encoding") = false →
      (h.get (bytes "Content-Type")).length > 0 →
      List.isPrefixOf (bytes "text") (h.get (bytes "Content-Type")) = true →
      writeBodyOut h body =
        bytes "Content-Transfer-Encoding: quoted-printable" ++ [13, 10, 13, 10] ++
          qpEncodeBody body) ∧
    (h.isSet (bytes "Content-Transfer-Encoding") = false →
      (h.get (bytes "Content-Type")).length > 0 →
      List.isPrefixOf (bytes "text") (h.get (bytes "Content-Type")) = false →
      writeBodyOut h body =
        bytes "Content-Transfer-Encoding: base64" ++ [13, 10, 13, 10] ++
          b64Fold MaxBodyLineLength 0 (b64Encode body)) := by
  refine ⟨?_, ?_, ?_, ?_⟩ <;> intro h1 <;> unfold writeBodyOut
  · simp [h1]
  · simp [h1]
  · intro h2 h3
    rw [if_pos (by simp only [h1, Bool.not_false, Bool.and_true]; simpa using h2),
      if_pos h3]
  · intro h2 h3
    rw [if_pos (by simp only [h1, Bool.not_false, Bool.and_true]; simpa using h2),
      if_neg (by simp [h3])]

/-- C6 witness: the dispatch theorem applied to a concrete text part. -/
theorem writeBody_dispatch_witness :
    writeBodyOut [(bytes "Content-Type", [bytes "text/plain; charset=\"UTF-8\""])]
        (bytes "hi") =
      bytes "Content-Transfer-Encoding: quoted-printable" ++ [13, 10, 13, 10] ++
        qpEncodeBody (bytes "hi") :=
  (writeBody_dispatch [(bytes "Content-Type", [bytes "text/plain; charset=\"UTF-8\""])]
    (bytes "hi")).2.2.1 (by decide) (by decide) (by decide)

set_option maxRecDepth 400000 in
/-- C4 counterexample: a multipart body whose first part has an
unparseable Content-Type ("text/" has no subtype) followed by a
well-formed sibling.  The claim says scanning stops at the malformed
part; the code instead skips it (`continue`) and the LATER sibling is
retained, so the result holds exactly the second part. -/
theorem readParts_continues_after_malformed_part :
    (match parseMessage (bytes ("Content-Type: multipart/mixed; boundary=\"XX\"\r\n\r\n" ++
        "\r\n--XX\r\nContent-Type: text/\r\n\r\nbad part" ++
        "\r\n--XX\r\nContent-Type: text/plain\r\n\r\ngood part\r\n--XX--\r\n")) with
     | .ok m => some (m.parts.map (fun p => p.body))
     | .error _ => none) = some [bytes "good part"] := by
  rfl

/-- C4 (amended): the readParts loop is lenient — a part whose message
parse fails is skipped and the loop CONTINUES with the remaining
siblings (whose successful parses are all retained and appended exactly
as if the malformed part were absent), a part that parses is appended
before the siblings' results, and the loop itself never fails; only a
reader-level failure stops the scan earlier, by truncating the segment
list mpSegLoop produces, which still keeps every segment before it. -/
theorem readParts_skips_failed_parts (fuel : Nat) (seg : Header × List Nat)
    (rest : List (Header × List Nat)) :
    (∀ e, parseMessageWithHeader fuel seg.1 seg.2 = .error e →
      readPartsLoop (fuel + 1) (seg :: rest) = readPartsLoop fuel rest) ∧
    (∀ m, parseMessageWithHeader fuel seg.1 seg.2 = .ok m →
      readPartsLoop (fuel + 1) (seg :: rest) = m :: readPartsLoop fuel rest) := by
  constructor
  · intro e he
    rw [readPartsLoop, he]
  · intro m hm
    rw [readPartsLoop, hm]

/-- C4 witness: the loop theorem applied to a concrete malformed first
segment ("text/" does not parse) followed by a good sibling. -/
theorem readParts_skips_failed_parts_witness :
    readPartsLoop 2
        [([(bytes "Content-Type", [bytes "text/"])], bytes "bad part"),
         ([(bytes "Content-Type", [bytes "text/plain"])], bytes "good part")] =
      readPartsLoop 1 [([(bytes "Content-Type", [bytes "text/plain"])], bytes "good part")] :=
  (readParts_skips_failed_parts 1
    ([(bytes "Content-Type", [bytes "text/"])], bytes "bad part")
    [([(bytes "Content-Type", [bytes "text/plain"])], bytes "good part")]).1
    () (by rfl)

/-- C5 counterexample: a multipart Content-Type without a boundary
parameter parses WITHOUT error: the empty boundary makes the preamble
reader consume the body (no "--" occurs), the part scan finds nothing,
and the node comes back as a multipart message with no parts. -/
theorem multipart_without_boundary_parses :
    parseMessage (bytes "Content-Type: multipart/mixed\r\n\r\nhello") =
      .ok (.mk [(bytes "Content-Type", [bytes "multipart/mixed"])]
        (bytes "hello") [] [] none []) := by
  rfl

/-- C5 (amended): the boundary parameter is not required — when the
Content-Type parses to a multipart media type with no boundary (and no
transfer-decoding intervenes), parsing the node always succeeds,
yielding a multipart node with whatever parts the scan recovers. -/
theorem multipart_without_boundary_not_fatal (fuel : Nat) (h : Header)
    (body mt : List Nat) (params : Params)
    (h1 : h.get (bytes "Content-Transfer-Encoding") = [])
    (h2 : parseMediaType (h.get (bytes "Content-Type")) = some (mt, params))
    (h3 : List.isPrefixOf (bytes "multipart") mt = true)
    (h5 : (h.get (bytes "Content-Type")).length > 0) :
    ∃ preamble epilogue parts, parseMessageWithHeader (fuel + 1) h body =
      .ok (.mk h preamble epilogue parts none []) := by
  have hcr : contentReader h body = (h, .ok body) := by
    unfold contentReader
    rw [h1]
    rfl
  refine ⟨(preambleSplit body (bytes "--" ++ paramsGet params (bytes "boundary"))).1,
    readEpilogue (mpExtractParts
      (preambleSplit body (bytes "--" ++ paramsGet params (bytes "boundary"))).2
      (paramsGet params (bytes "boundary"))).2,
    readPartsLoop fuel (mpExtractParts
      (preambleSplit body (bytes "--" ++ paramsGet params (bytes "boundary"))).2
      (paramsGet params (bytes "boundary"))).1, ?_⟩
  unfold parseMessageWithHeader
  rw [hcr]
  simp only [if_pos h5, h2, h3, if_true]

/-- C5 witness: the amended theorem applied to the concrete
boundary-less multipart message. -/
theorem multipart_without_boundary_not_fatal_witness :
    ∃ preamble epilogue parts, parseMessageWithHeader 1
        [(bytes "Content-Type", [bytes "multipart/mixed"])] (bytes "hello") =
      .ok (.mk [(bytes "Content-Type", [bytes "multipart/mixed"])]
        preamble epilogue parts none []) :=
  multipart_without_boundary_not_fatal 0
    [(bytes "Content-Type", [bytes "multipart/mixed"])] (bytes "hello")
    (bytes "multipart/mixed") [] (by decide) (by decide) (by decide) (by decide)

/-! ### C9 support: characterizing firstIndexOfSeq and backOverWS -/

theorem firstIndexOfSeq_iff (pat : List Nat) :
    ∀ (s : List Nat) (i : Nat),
      firstIndexOfSeq s pat = some i ↔
        (pat.isPrefixOf (s.drop i) = true ∧
         ∀ k, k < i → pat.isPrefixOf (s.drop k) = false) := by
  intro s
  induction s with
  | nil =>
    intro i
    unfold firstIndexOfSeq
    by_cases hp : pat.isEmpty = true
    · rw [if_pos hp]
      cases pat with
      | nil =>
        constructor
        · intro h
          cases h
          exact ⟨rfl, fun k hk => absurd hk (by omega)⟩
        · rintro ⟨h1, h2⟩
          rcases Nat.eq_zero_or_pos i with h0 | h0
          · rw [h0]
          · exact absurd (h2 0 h0) (by simp [List.isPrefixOf])
      | cons a t => cases hp
    · rw [if_neg hp]
      cases pat with
      | nil => exact absurd rfl hp
      | cons a t =>
        constructor
        · intro h; cases h
        · rintro ⟨h1, _⟩
          rw [List.drop_nil] at h1
          cases h1
  | cons b rest ih =>
    intro i
    simp only [firstIndexOfSeq]
    by_cases hp : pat.isPrefixOf (b :: rest) = true
    · rw [if_pos hp]
      constructor
      · intro h
        cases h
        exact ⟨hp, fun k hk => absurd hk (by omega)⟩
      · rintro ⟨h1, h2⟩
        rcases Nat.eq_zero_or_pos i with h0 | h0
        · rw [h0]
        · exfalso
          have h00 := h2 0 h0
          rw [List.drop_zero] at h00
          rw [h00] at hp
          exact Bool.noConfusion hp
    · rw [if_neg hp]
      cases i with
      | zero =>
        constructor
        · intro h
          rcases Option.map_eq_some'.mp h with ⟨j, _, hj⟩
          omega
        · rintro ⟨h1, _⟩
          rw [List.drop_zero] at h1
          exact absurd h1 hp
      | succ i' =>
        constructor
        · intro h
          rcases Option.map_eq_some'.mp h with ⟨j, hj, hji⟩
          have hj' : j = i' := by omega
          rw [hj'] at hj
          obtain ⟨h1, h2⟩ := (ih i').mp hj
          refine ⟨h1, fun k hk => ?_⟩
          cases k with
          | zero =>
            rw [List.drop_zero]
            cases hb : pat.isPrefixOf (b :: rest) with
            | false => rfl
            | true => exact absurd hb hp
          | succ k' => exact h2 k' (by omega)
        · rintro ⟨h1, h2⟩
          have hr : firstIndexOfSeq rest pat = some i' := by
            refine (ih i').mpr ⟨h1, fun k hk => h2 (k + 1) (by omega)⟩
          rw [hr]
          rfl

theorem firstIndexOfSeq_take (s pat : List Nat) (i c : Nat)
    (h : firstIndexOfSeq s pat = some i) (hc : i + pat.length ≤ c) :
    firstIndexOfSeq (s.take c) pat = some i := by
  obtain ⟨h1, h2⟩ := (firstIndexOfSeq_iff pat s i).mp h
  refine (firstIndexOfSeq_iff pat (s.take c) i).mpr ⟨?_, ?_⟩
  · rw [List.drop_take, List.isPrefixOf_iff_prefix, List.prefix_take_iff]
    exact ⟨List.isPrefixOf_iff_prefix.mp h1, by omega⟩
  · intro k hk
    by_contra hcon
    have hx : pat.isPrefixOf ((s.take c).drop k) = true := by
      cases hb : pat.isPrefixOf ((s.take c).drop k) with
      | false => exact absurd hb hcon
      | true => rfl
    have hpre := List.isPrefixOf_iff_prefix.mp hx
    rw [List.drop_take, List.prefix_take_iff] at hpre
    have hmin := h2 k hk
    rw [← List.isPrefixOf_iff_prefix] at hpre
    rw [hmin] at hpre
    exact absurd hpre.1 (by simp)

theorem firstIndexOfSeq_take_none (s pat : List Nat) (i c : Nat)
    (hpat : pat ≠ []) (h : firstIndexOfSeq s pat = some i)
    (hc : c < i + pat.length) :
    firstIndexOfSeq (s.take c) pat = none := by
  obtain ⟨h1, h2⟩ := (firstIndexOfSeq_iff pat s i).mp h
  rcases hk : firstIndexOfSeq (s.take c) pat with _ | k
  · rfl
  · exfalso
    obtain ⟨hk1, _⟩ := (firstIndexOfSeq_iff pat (s.take c) k).mp hk
    rw [List.drop_take, List.isPrefixOf_iff_prefix, List.prefix_take_iff] at hk1
    obtain ⟨hpre, hlen⟩ := hk1
    have hplen : 0 < pat.length := List.length_pos.mpr hpat
    by_cases hik : k < i
    · have := h2 k hik
      rw [← List.isPrefixOf_iff_prefix] at hpre
      rw [this] at hpre
      cases hpre
    · omega

theorem firstIndexOfSeq_isSome_of_prefix :
    ∀ (s pat : List Nat) (k : Nat), pat.isPrefixOf (s.drop k) = true →
      (firstIndexOfSeq s pat).isSome = true := by
  intro s
  induction s with
  | nil =>
    intro pat k h
    rw [List.drop_nil] at h
    have hemp : pat.isEmpty = true := by
      cases pat with
      | nil => rfl
      | cons a t => simp [List.isPrefixOf] at h
    unfold firstIndexOfSeq
    rw [if_pos hemp]
    rfl
  | cons b rest ih =>
    intro pat k h
    unfold firstIndexOfSeq
    by_cases hp : pat.isPrefixOf (b :: rest) = true
    · rw [if_pos hp]; rfl
    · rw [if_neg hp]
      cases k with
      | zero =>
        rw [List.drop_zero] at h
        exact absurd h hp
      | succ k' =>
        have hsome := ih pat k' h
        rcases hx : firstIndexOfSeq rest pat with _ | j
        · rw [hx] at hsome; cases hsome
        · simp [hx]

theorem firstIndexOfSeq_none_take (s pat : List Nat) (c : Nat)
    (h : firstIndexOfSeq s pat = none) :
    firstIndexOfSeq (s.take c) pat = none := by
  rcases hk : firstIndexOfSeq (s.take c) pat with _ | k
  · rfl
  · exfalso
    obtain ⟨hk1, _⟩ := (firstIndexOfSeq_iff pat (s.take c) k).mp hk
    rw [List.drop_take, List.isPrefixOf_iff_prefix, List.prefix_take_iff] at hk1
    have hkc : pat.isPrefixOf (s.drop k) = true :=
      List.isPrefixOf_iff_prefix.mpr hk1.1
    have := firstIndexOfSeq_isSome_of_prefix s pat k hkc
    rw [h] at this
    cases this

theorem backOverWS_le (s : List Nat) : ∀ i, backOverWS s i ≤ i := by
  intro i
  induction i with
  | zero => exact le_refl 0
  | succ i ih =>
    unfold backOverWS
    by_cases hw : (s[i]?).any isASCIISpace = true
    · rw [if_pos hw]; omega
    · rw [if_neg hw]

theorem backOverWS_take (s : List Nat) (c : Nat) :
    ∀ i, i ≤ c → backOverWS (s.take c) i = backOverWS s i := by
  intro i
  induction i with
  | zero => intro _; rfl
  | succ i ih =>
    intro hic
    unfold backOverWS
    rw [List.getElem?_take, if_pos (by omega : i < c), ih (by omega)]

theorem backOverWS_drop (s : List Nat) :
    ∀ i' n, n ≤ backOverWS s (n + i') →
      backOverWS (s.drop n) i' = backOverWS s (n + i') - n := by
  intro i'
  induction i' with
  | zero =>
    intro n hn
    rw [Nat.add_zero] at hn ⊢
    have hle := backOverWS_le s n
    have hz : backOverWS s n = n := le_antisymm hle hn
    rw [hz]
    simp [backOverWS]
  | succ i' ih =>
    intro n hn
    have hadd : n + (i' + 1) = (n + i') + 1 := by omega
    rw [hadd] at hn ⊢
    cases hw : (s[n + i']?).any isASCIISpace with
    | true =>
      have hlhs : backOverWS (s.drop n) (i' + 1) = backOverWS (s.drop n) i' := by
        show (if ((s.drop n)[i']?).any isASCIISpace then backOverWS (s.drop n) i'
          else i' + 1) = backOverWS (s.drop n) i'
        rw [List.getElem?_drop, hw]
        rfl
      have hrhs : backOverWS s ((n + i') + 1) = backOverWS s (n + i') := by
        show (if (s[n + i']?).any isASCIISpace then backOverWS s (n + i')
          else (n + i') + 1) = backOverWS s (n + i')
        rw [hw]
        rfl
      rw [hrhs] at hn
      rw [hlhs, hrhs]
      exact ih n hn
    | false =>
      have hlhs : backOverWS (s.drop n) (i' + 1) = i' + 1 := by
        show (if ((s.drop n)[i']?).any isASCIISpace then backOverWS (s.drop n) i'
          else i' + 1) = i' + 1
        rw [List.getElem?_drop, hw]
        rfl
      have hrhs : backOverWS s ((n + i') + 1) = (n + i') + 1 := by
        show (if (s[n + i']?).any isASCIISpace then backOverWS s (n + i')
          else (n + i') + 1) = (n + i') + 1
        rw [hw]
        rfl
      rw [hlhs, hrhs]
      omega

theorem preambleRead_eq_none (chunk : Nat) (s bd : List Nat)
    (hc : ¬((chunk == 0) = true))
    (hf : firstIndexOfSeq (s.take chunk) bd = none) :
    preambleRead chunk s bd =
      if s.isEmpty then ([], [], true)
      else (s.take (goMax 1 ((s.take chunk).length - (bd.length + 2))),
            s.drop (goMax 1 ((s.take chunk).length - (bd.length + 2))), false) := by
  unfold preambleRead
  rw [if_neg hc, hf]

theorem preambleRead_eq_found (chunk : Nat) (s bd : List Nat)
    (hc : ¬((chunk == 0) = true)) (i : Nat)
    (hf : firstIndexOfSeq (s.take chunk) bd = some i) :
    preambleRead chunk s bd =
      if backOverWS (s.take chunk) i == 0 then ([], s, true)
      else (s.take (backOverWS (s.take chunk) i),
            s.drop (backOverWS (s.take chunk) i), true) := by
  unfold preambleRead
  rw [if_neg hc, hf]

/-- C9: the preambleReader returns exactly the bytes strictly before the
first occurrence of the dash-boundary marker, never the marker itself
nor the contiguous whitespace run immediately before it (when that run
is at most a CRLF, so that it cannot straddle a read window); a stream
without the marker is passed through whole; and when the marker sits at
the very start (after trimming the adjoining whitespace), the reader
reports zero bytes and end-of-data rather than an error. -/
theorem preamble_reader_spec (bd : List Nat) (hbd : bd ≠ []) (chunk : Nat)
    (hchunk : bd.length + 3 ≤ chunk) :
    ∀ fuel s, s.length < fuel →
      (firstIndexOfSeq s bd = none → preambleReadAll fuel chunk s bd = s) ∧
      (∀ i, firstIndexOfSeq s bd = some i → i - backOverWS s i ≤ 2 →
        preambleReadAll fuel chunk s bd = s.take (backOverWS s i)) ∧
      (∀ i, firstIndexOfSeq s bd = some i → i + bd.length ≤ chunk →
        backOverWS s i = 0 → preambleRead chunk s bd = ([], s, true)) := by
  have hbdlen : 0 < bd.length := List.length_pos.mpr hbd
  have hcz : ¬((chunk == 0) = true) := by simp; omega
  -- the end-of-data step fact, proved once
  have stepC : ∀ s i, firstIndexOfSeq s bd = some i → i + bd.length ≤ chunk →
      backOverWS s i = 0 → preambleRead chunk s bd = ([], s, true) := by
    intro s i hfind hwin hz
    rw [preambleRead_eq_found chunk s bd hcz i
      (firstIndexOfSeq_take s bd i chunk hfind hwin)]
    rw [backOverWS_take s chunk i (by omega), hz]
    rfl
  intro fuel
  induction fuel with
  | zero =>
    intro s hs
    omega
  | succ fuel ih =>
    intro s hs
    refine ⟨?_, ?_, fun i hf hw hz => stepC s i hf hw hz⟩
    · -- no marker anywhere: the whole stream is the preamble
      intro hnone
      unfold preambleReadAll
      rw [preambleRead_eq_none chunk s bd hcz
        (firstIndexOfSeq_none_take s bd chunk hnone)]
      by_cases hemp : s.isEmpty = true
      · rw [if_pos hemp]
        cases s with
        | nil => rfl
        | cons a t => cases hemp
      · rw [if_neg hemp]
        have hslen : 0 < s.length := by
          cases s with
          | nil => exact absurd rfl hemp
          | cons a t => simp
        set n := goMax 1 ((s.take chunk).length - (bd.length + 2)) with hn
        show s.take n ++ preambleReadAll fuel chunk (s.drop n) bd = s
        have hn1 : 1 ≤ n := by
          rw [hn]; unfold goMax; exact Nat.le_max_left 1 _
        have hdroplen : (s.drop n).length < fuel := by
          rw [List.length_drop]; omega
        have hdropnone : firstIndexOfSeq (s.drop n) bd = none := by
          rcases hk : firstIndexOfSeq (s.drop n) bd with _ | k
          · rfl
          · exfalso
            obtain ⟨hk1, _⟩ := (firstIndexOfSeq_iff bd (s.drop n) k).mp hk
            rw [List.drop_drop] at hk1
            have := firstIndexOfSeq_isSome_of_prefix s bd (n + k) hk1
            rw [hnone] at this
            cases this
        rw [(ih (s.drop n) hdroplen).1 hdropnone]
        exact List.take_append_drop n s
    · -- marker at i, short whitespace run before it
      intro i hfind hrun
      have hpref := ((firstIndexOfSeq_iff bd s i).mp hfind).1
      have hext : i + bd.length ≤ s.length := by
        have := (List.isPrefixOf_iff_prefix.mp hpref).length_le
        rw [List.length_drop] at this
        omega
      by_cases hwin : i + bd.length ≤ chunk
      · -- found within the first window
        unfold preambleReadAll
        rw [preambleRead_eq_found chunk s bd hcz i
          (firstIndexOfSeq_take s bd i chunk hfind hwin)]
        rw [backOverWS_take s chunk i (by omega)]
        by_cases hz : backOverWS s i = 0
        · rw [hz]
          rfl
        · have hzb : ¬((backOverWS s i == 0) = true) := by simpa using hz
          rw [if_neg hzb]
          rfl
      · -- marker beyond the window: pass bytes through, leaving a margin
        unfold preambleReadAll
        have hslong : chunk < s.length := by omega
        have hpeeklen : (s.take chunk).length = chunk := by
          rw [List.length_take]; omega
        rw [preambleRead_eq_none chunk s bd hcz
          (firstIndexOfSeq_take_none s bd i chunk hbd hfind (by omega))]
        have hemp : ¬(s.isEmpty = true) := by
          cases s with
          | nil => simp at hslong
          | cons a t => simp
        rw [if_neg hemp, hpeeklen]
        set n := goMax 1 (chunk - (bd.length + 2)) with hn
        show s.take n ++ preambleReadAll fuel chunk (s.drop n) bd =
          s.take (backOverWS s i)
        have hneq : n = chunk - bd.length - 2 := by
          rw [hn]; unfold goMax
          show max 1 (chunk - (bd.length + 2)) = chunk - bd.length - 2
          rw [Nat.max_eq_right (by omega : 1 ≤ chunk - (bd.length + 2))]
          omega
        have hj := backOverWS_le s i
        have hnj : n < backOverWS s i := by omega
        have hni : n ≤ i := by omega
        have hdroplen : (s.drop n).length < fuel := by
          rw [List.length_drop]; omega
        have hdropfind : firstIndexOfSeq (s.drop n) bd = some (i - n) := by
          refine (firstIndexOfSeq_iff bd (s.drop n) (i - n)).mpr ⟨?_, ?_⟩
          · rw [List.drop_drop]
            rw [(by omega : n + (i - n) = i)]
            exact hpref
          · intro k hk
            rw [List.drop_drop]
            have := ((firstIndexOfSeq_iff bd s i).mp hfind).2 (n + k) (by omega)
            exact this
        have hdropback : backOverWS (s.drop n) (i - n) = backOverWS s i - n := by
          have := backOverWS_drop s (i - n) n
          rw [(by omega : n + (i - n) = i)] at this
          exact this (by omega)
        have hrun' : (i - n) - backOverWS (s.drop n) (i - n) ≤ 2 := by
          rw [hdropback]; omega
        rw [(ih (s.drop n) hdroplen).2.1 (i - n) hdropfind hrun', hdropback]
        rw [← List.take_add]
        rw [(by omega : n + (backOverWS s i - n) = backOverWS s i)]

/-- C9 witness: a concrete preamble, CRLF, marker and trailing data. -/
theorem preamble_reader_spec_witness :
    preambleReadAll 64 32 (bytes "my preamble\r\n--bd\r\ncontent") (bytes "--bd") =
      bytes "my preamble" := by
  have h := (preamble_reader_spec (bytes "--bd") (by decide) 32 (by decide)
    64 (bytes "my preamble\r\n--bd\r\ncontent") (by decide)).2.1
  have h2 := h 13 (by decide) (by decide)
  rw [h2]
  decide

/-- C10: Get on a nil Header returns "" and IsSet returns false, for every
key: the read accessors are total on an absent header map. -/
theorem nil_header_reads_safe (key : List Nat) :
    getOrNil (none : HeaderOrNil) key = [] ∧
    isSetOrNil (none : HeaderOrNil) key = false := by
  exact ⟨rfl, rfl⟩

/-- C2: the three payload-shape predicates are mutually exclusive, derive
solely from the Content-Type header (the payload fields never influence
them), match the multipart/message/neither prefix test on the parsed media
type (with a malformed Content-Type forcing all three false), and Payload
dispatches on them in order. -/
theorem payload_shape_exclusive_and_derived (m : Msg) :
    ((m.hasParts && m.hasSubMessage) = false ∧
     (m.hasParts && m.hasBody) = false ∧
     (m.hasSubMessage && m.hasBody) = false) ∧
    (∀ (ps : List Msg) (sub : Option Msg) (b : List Nat),
      (Msg.mk m.header m.preamble m.epilogue ps sub b).hasParts = m.hasParts ∧
      (Msg.mk m.header m.preamble m.epilogue ps sub b).hasSubMessage = m.hasSubMessage ∧
      (Msg.mk m.header m.preamble m.epilogue ps sub b).hasBody = m.hasBody) ∧
    (m.hasParts = specMediaTypeStartsWith m.header "multipart") ∧
    (m.hasSubMessage = specMediaTypeStartsWith m.header "message") ∧
    (m.hasBody = (!ctMalformed m.header &&
      !specMediaTypeStartsWith m.header "multipart" &&
      !specMediaTypeStartsWith m.header "message")) ∧
    (m.payload = if m.hasParts then .parts m.parts
      else if m.hasSubMessage then .sub m.subMessage
      else .body m.body) := by
  have hexcl : ∀ mt : List Nat,
      List.isPrefixOf (bytes "multipart") mt = true →
      List.isPrefixOf (bytes "message") mt = true → False := by
    intro mt h1 h2
    have p1 : bytes "multipart" <+: mt := List.isPrefixOf_iff_prefix.mp h1
    have p2 : bytes "message" <+: mt := List.isPrefixOf_iff_prefix.mp h2
    rcases List.prefix_or_prefix_of_prefix p1 p2 with h | h
    · exact absurd h (by decide)
    · exact absurd h (by decide)
  refine ⟨⟨?_, ?_, ?_⟩, fun ps sub b => ⟨rfl, rfl, rfl⟩, ?_, ?_, ?_, rfl⟩ <;>
    simp only [Msg.hasParts, Msg.hasSubMessage, Msg.hasBody, specMediaTypeStartsWith,
      ctMalformed] <;>
    rcases hct : m.header.contentType with e | ⟨mt, ps⟩ <;>
    first
      | (cases e <;> simp)
      | (by_cases h1 : List.isPrefixOf (bytes "multipart") mt = true <;>
         by_cases h2 : List.isPrefixOf (bytes "message") mt = true <;>
         first
           | exact absurd (hexcl mt h1 h2) (fun h => h)
           | simp [h1, h2])

/-! ## C1: the serialize/parse round trip -/

theorem textPartWireHead_eq :
    textPartWireHead =
      bytes "Content-Type: text/plain; charset=\"UTF-8\"\r\nContent-Transfer-Encoding: quoted-printable\r\n\r\n" := by
  decide

theorem takeWhileAll (p : Nat → Bool) (l : List Nat) (h : ∀ b ∈ l, p b = true) :
    l.takeWhile p = l := by
  induction l with
  | nil => rfl
  | cons b t ih =>
    rw [List.takeWhile_cons, if_pos (h b (List.mem_cons_self b t)),
      ih (fun x hx => h x (List.mem_cons_of_mem b hx))]

theorem dropWhileAll (p : Nat → Bool) (l : List Nat) (h : ∀ b ∈ l, p b = true) :
    l.dropWhile p = [] := by
  induction l with
  | nil => rfl
  | cons b t ih =>
    rw [List.dropWhile_cons, if_pos (h b (List.mem_cons_self b t)),
      ih (fun x hx => h x (List.mem_cons_of_mem b hx))]

theorem rtrimWS_id (l : List Nat)
    (h : ∀ x, l.getLast? = some x → isASCIISpace x = false) :
    rtrimWS l = l := by
  unfold rtrimWS
  cases hr : l.reverse with
  | nil =>
    simpa using (List.reverse_eq_nil_iff.mp hr).symm
  | cons a t =>
    have ha : l.getLast? = some a := by
      rw [← List.head?_reverse, hr]; rfl
    rw [List.dropWhile_cons, h a ha]
    rw [if_neg Bool.false_ne_true, ← hr, List.reverse_reverse]

theorem splitCRLF_plain (l : List Nat) (h : ∀ b ∈ l, b ≠ 13) :
    splitCRLF l = [l] := by
  induction l with
  | nil => rfl
  | cons b t ih =>
    cases t with
    | nil => rfl
    | cons c t2 =>
      unfold splitCRLF
      rw [if_neg ?hc, ih (fun x hx => h x (List.mem_cons_of_mem b hx))]
      case hc =>
        simp only [Bool.and_eq_true, beq_iff_eq]
        rintro ⟨hb, -⟩
        exact h b (List.mem_cons_self b (c :: t2)) hb

theorem qpAtom_plain (b : Nat) (h : qpPlain b = true) : qpAtom b = [b] := by
  unfold qpAtom
  rw [if_pos h]

theorem qpLineAtoms_plain (l : List Nat) (hpl : ∀ b ∈ l, qpPlain b = true)
    (hlast : ∀ x, l.getLast? = some x → x ≠ 32 ∧ x ≠ 9) :
    qpLineAtoms l = l.map (fun b => [b]) := by
  induction l using List.reverseRecOn with
  | nil => rfl
  | append_singleton xs x _ =>
    unfold qpLineAtoms
    rw [List.getLast?_concat, List.dropLast_concat]
    show xs.map qpAtom ++
        [if x == 32 || x == 9 then qpEscape x else qpAtom x] =
      (xs ++ [x]).map (fun b => [b])
    have hx : x ≠ 32 ∧ x ≠ 9 := hlast x (List.getLast?_concat xs)
    rw [if_neg (by simp only [Bool.or_eq_true, beq_iff_eq]; omega)]
    rw [qpAtom_plain x (hpl x (List.mem_append_right xs (List.mem_singleton.mpr rfl)))]
    rw [List.map_append, List.map_singleton]
    rw [List.map_congr_left
      (fun a ha => qpAtom_plain a (hpl a (List.mem_append_left [x] ha)))]

theorem qpWrapAtoms_ones (l : List Nat) : ∀ col, col + l.length ≤ 75 →
    qpWrapAtoms (l.map (fun b => [b])) col = l := by
  induction l with
  | nil => intro col _; rfl
  | cons b t ih =>
    intro col hcol
    have hlen : (b :: t).length = t.length + 1 := rfl
    show qpWrapAtoms ([b] :: t.map (fun b => [b])) col = b :: t
    unfold qpWrapAtoms
    have hbrk : qpBreakCond [b] col = false := by
      simp only [qpBreakCond, List.length_cons, List.length_nil]
      simp only [Bool.or_eq_false_iff, Bool.and_eq_false_iff]
      constructor
      · right; simp only [beq_eq_false_iff_ne, ne_eq]; omega
      · left; decide
    rw [if_neg (by simp [hbrk])]
    show [b] ++ qpWrapAtoms (t.map (fun b => [b])) (col + 1) = b :: t
    rw [ih (col + 1) (by rw [hlen] at hcol; omega)]
    rfl

theorem qpEncodeBody_plain (bs : List Nat)
    (hb : ∀ b ∈ bs, qpPlain b = true ∧ b ≠ 13)
    (hlast : ∀ x, bs.getLast? = some x → x ≠ 32 ∧ x ≠ 9)
    (hlen : bs.length ≤ 75) :
    qpEncodeBody bs = bs := by
  unfold qpEncodeBody
  rw [splitCRLF_plain bs (fun b hb' => (hb b hb').2), List.map_singleton]
  rw [qpLineAtoms_plain bs (fun b hb' => (hb b hb').1) hlast]
  rw [qpWrapAtoms_ones bs 0 (by omega)]
  rfl

theorem qpDecodeLineBytes_plain (l : List Nat) (h : ∀ b ∈ l, b ≠ 61) :
    qpDecodeLineBytes l = some l := by
  induction l with
  | nil => rfl
  | cons b t ih =>
    unfold qpDecodeLineBytes
    rw [if_neg (by simpa using h b (List.mem_cons_self b t))]
    rw [ih (fun x hx => h x (List.mem_cons_of_mem b hx))]

theorem qpDecodeBody_plain (bs : List Nat)
    (h61 : ∀ b ∈ bs, b ≠ 61) (h10 : ∀ b ∈ bs, (b != 10) = true)
    (hlast : ∀ x, bs.getLast? = some x → isASCIISpace x = false) :
    qpDecodeBody bs = some bs := by
  unfold qpDecodeBody
  cases bs with
  | nil => rfl
  | cons b t =>
    rw [qpDecodeLoop]
    · rw [dropWhileAll _ _ h10]
      show (if (rtrimWS ((b :: t).takeWhile (fun x => x != 10))).getLast? ==
              some 61 then
          if (b :: t).takeWhile (fun x => x != 10) ==
                rtrimWS ((b :: t).takeWhile (fun x => x != 10)) &&
              (rtrimWS ((b :: t).takeWhile (fun x => x != 10))).length > 1 then
            qpDecodeLineBytes
              (rtrimWS ((b :: t).takeWhile (fun x => x != 10))).dropLast
          else none
        else qpDecodeLineBytes (rtrimWS ((b :: t).takeWhile (fun x => x != 10))))
        = some (b :: t)
      rw [takeWhileAll _ _ h10, rtrimWS_id _ hlast]
      cases hg : (b :: t).getLast? with
      | none =>
        rw [List.getLast?_eq_none_iff] at hg
        cases hg
      | some x =>
        have hx61 : x ≠ 61 := h61 x (List.mem_of_mem_getLast? hg)
        rw [show (some x == some 61) = (x == 61) from rfl,
          if_neg (by simpa using hx61)]
        exact qpDecodeLineBytes_plain _ h61
    · exact fun h => List.noConfusion h

set_option maxRecDepth 100000 in
theorem c1_takeLine1 (bs : List Nat) :
    takeLineInc (textPartWireHead ++ bs) =
      ([67, 111, 110, 116, 101, 110, 116, 45, 84, 121, 112, 101, 58, 32, 116,
        101, 120, 116, 47, 112, 108, 97, 105, 110, 59, 32, 99, 104, 97, 114,
        115, 101, 116, 61, 34, 85, 84, 70, 45, 56, 34, 13, 10],
       textPartWireTail ++ bs) := rfl

set_option maxRecDepth 100000 in
theorem c1_takeLine2 (bs : List Nat) :
    takeLineInc (textPartWireTail ++ bs) =
      ([67, 111, 110, 116, 101, 110, 116, 45, 84, 114, 97, 110, 115, 102,
        101, 114, 45, 69, 110, 99, 111, 100, 105, 110, 103, 58, 32, 113, 117,
        111, 116, 101, 100, 45, 112, 114, 105, 110, 116, 97, 98, 108, 101,
        13, 10],
       [13, 10] ++ bs) := rfl

set_option maxRecDepth 100000 in
theorem c1_takeLineBlank (bs : List Nat) :
    takeLineInc ([13, 10] ++ bs) = ([13, 10], bs) := rfl

set_option maxRecDepth 100000 in
set_option maxHeartbeats 800000 in
theorem c1_read_step1 (fuel : Nat) (bs : List Nat) :
    readMIMEHeader (fuel + 1) (textPartWireHead ++ bs) [] =
      readMIMEHeader fuel (textPartWireTail ++ bs)
        [(bytes "Content-Type", [bytes "text/plain; charset=\"UTF-8\""])] := by
  rw [readMIMEHeader]
  · rw [c1_takeLine1 bs]
    rfl
  · exact fun h => by simp [textPartWireHead] at h

set_option maxRecDepth 100000 in
set_option maxHeartbeats 800000 in
theorem c1_read_step2 (fuel : Nat) (bs : List Nat) :
    readMIMEHeader (fuel + 1) (textPartWireTail ++ bs)
        [(bytes "Content-Type", [bytes "text/plain; charset=\"UTF-8\""])] =
      readMIMEHeader fuel ([13, 10] ++ bs)
        [(bytes "Content-Type", [bytes "text/plain; charset=\"UTF-8\""]),
         (bytes "Content-Transfer-Encoding", [bytes "quoted-printable"])] := by
  rw [readMIMEHeader]
  · rw [c1_takeLine2 bs]
    rfl
  · exact fun h => by simp [textPartWireTail] at h

set_option maxRecDepth 100000 in
set_option maxHeartbeats 800000 in
theorem c1_read_blank (fuel : Nat) (bs : List Nat) (acc : Header) :
    readMIMEHeader (fuel + 1) ([13, 10] ++ bs) acc = some (acc, bs) := by
  rw [readMIMEHeader]
  · rw [c1_takeLineBlank bs]
    rfl
  · exact fun h => by simp at h

set_option maxRecDepth 100000 in
theorem c1_read_chain (bs : List Nat) (fuel : Nat) :
    readMIMEHeader (fuel + 3) (textPartWireHead ++ bs) [] =
      some ([(bytes "Content-Type", [bytes "text/plain; charset=\"UTF-8\""]),
             (bytes "Content-Transfer-Encoding", [bytes "quoted-printable"])],
            bs) := by
  rw [show fuel + 3 = (fuel + 2) + 1 from rfl, c1_read_step1 (fuel + 2) bs]
  rw [show fuel + 2 = (fuel + 1) + 1 from rfl, c1_read_step2 (fuel + 1) bs]
  rw [c1_read_blank fuel bs _]

set_option maxRecDepth 100000 in
set_option maxHeartbeats 800000 in
theorem c1_serialize_shape (bs : List Nat) :
    roundTrip (textPartMsg bs) =
      parseMessage
        (Header.writeTo [(bytes "Content-Type",
            [bytes "text/plain; charset=\"UTF-8\""])] ++
          writeBodyOut [(bytes "Content-Type",
            [bytes "text/plain; charset=\"UTF-8\""])] bs) := rfl

set_option maxRecDepth 100000 in
set_option maxHeartbeats 800000 in
theorem c1_header_wire : Header.writeTo
    [(bytes "Content-Type", [bytes "text/plain; charset=\"UTF-8\""])] =
    bytes "Content-Type: text/plain; charset=\"UTF-8\"\r\n" := rfl

set_option maxRecDepth 100000 in
set_option maxHeartbeats 800000 in
theorem c1_body_wire (bs : List Nat) : writeBodyOut
    [(bytes "Content-Type", [bytes "text/plain; charset=\"UTF-8\""])] bs =
    bytes "Content-Transfer-Encoding: quoted-printable" ++ [13, 10, 13, 10] ++
      qpEncodeBody bs := rfl

set_option maxRecDepth 100000 in
set_option maxHeartbeats 800000 in
theorem c1_parse_chain (bs : List Nat) :
    parseMessage (textPartWireHead ++ bs) =
      parseMessageWithHeader (bs.length + 90)
        [(bytes "Content-Type", [bytes "text/plain; charset=\"UTF-8\""]),
         (bytes "Content-Transfer-Encoding", [bytes "quoted-printable"])]
        bs := by
  have hlen : (textPartWireHead ++ bs).length = bs.length + 90 := by
    rw [List.length_append, show textPartWireHead.length = 90 from rfl]
    omega
  show parseMessageFuel ((textPartWireHead ++ bs).length + 1)
    (textPartWireHead ++ bs) = _
  rw [hlen, parseMessageFuel, hlen]
  rw [show leftTrim (textPartWireHead ++ bs) = textPartWireHead ++ bs from rfl]
  rw [show bs.length + 90 + 1 = (bs.length + 88) + 3 from by omega]
  rw [c1_read_chain bs (bs.length + 88)]
  rfl

set_option maxRecDepth 100000 in
set_option maxHeartbeats 800000 in
theorem c1_with_header (fuel : Nat) (bs : List Nat) :
    parseMessageWithHeader (fuel + 1)
      [(bytes "Content-Type", [bytes "text/plain; charset=\"UTF-8\""]),
       (bytes "Content-Transfer-Encoding", [bytes "quoted-printable"])] bs =
      (match (match qpDecodeBody bs with
              | some d => Except.ok d
              | none => Except.error ()) with
       | Except.error e => Except.error e
       | Except.ok dbody => Except.ok (textPartMsg dbody)) := rfl

/-- C1: parsing the serialized bytes back is the identity on a NewPartText
part whose body is a single short line of printable ASCII without `=` and
not ending in a space: the body is quoted-printable-encoded on the way out
(here the identity), the injected Content-Transfer-Encoding header is
consumed again by the parser, and the header and body come back intact.
(The companion counterexample shows the claim fails for general
constructor-built trees once a body line collides with the boundary.) -/
theorem roundtrip_text_part (bs : List Nat)
    (hb : ∀ b ∈ bs, 32 ≤ b ∧ b ≤ 126 ∧ b ≠ 61)
    (hlast : ∀ x, bs.getLast? = some x → x ≠ 32)
    (hlen : bs.length ≤ 75) :
    roundTrip (textPartMsg bs) = .ok (textPartMsg bs) := by
  have hqpenc : qpEncodeBody bs = bs := by
    refine qpEncodeBody_plain bs (fun b hb' => ⟨?_, ?_⟩) (fun x hx => ?_) hlen
    · have := hb b hb'
      simp only [qpPlain, Bool.or_eq_true, Bool.and_eq_true, beq_iff_eq,
        bne_iff_ne, ne_eq, decide_eq_true_eq]
      omega
    · have := hb b hb'; omega
    · have hm := hb x (List.mem_of_mem_getLast? hx)
      have h32 := hlast x hx
      omega
  have hqpdec : qpDecodeBody bs = some bs := by
    refine qpDecodeBody_plain bs (fun b hb' => (hb b hb').2.2)
      (fun b hb' => ?_) (fun x hx => ?_)
    · have := hb b hb'
      simp only [bne_iff_ne, ne_eq]
      omega
    · have hm := hb x (List.mem_of_mem_getLast? hx)
      have h32 := hlast x hx
      simp only [isASCIISpace, Bool.or_eq_true, beq_iff_eq]
      simp only [Bool.or_eq_false_iff, beq_eq_false_iff_ne, ne_eq]
      omega
  rw [c1_serialize_shape bs, c1_header_wire, c1_body_wire bs, hqpenc]
  show parseMessage (textPartWireHead ++ bs) = Except.ok (textPartMsg bs)
  rw [c1_parse_chain bs]
  rw [show bs.length + 90 = (bs.length + 89) + 1 from rfl]
  rw [c1_with_header (bs.length + 89) bs, hqpdec]

theorem roundtrip_text_part_witness :
    roundTrip (textPartMsg (bytes "Hello, world")) =
      .ok (textPartMsg (bytes "Hello, world")) :=
  roundtrip_text_part (bytes "Hello, world") (by decide) (by decide) (by decide)

set_option maxRecDepth 1000000 in
set_option maxHeartbeats 4000000 in
/-- C1 counterexample: a constructor-shaped multipart tree (the shape
NewPartMultipart "mixed" builds around NewPartText, with a hex boundary of
the form RandomBoundary produces) whose text part body contains a line
colliding with the enclosing dash-boundary does not survive the
serialize/parse round trip: the parsed part body stops at the collision. -/
theorem roundtrip_boundary_collision :
    Except.map (fun r => r.parts.map Msg.body)
        (roundTrip (mixedSingleTextMsg
          "0123456789abcdef0123456789abcdef0123456789abcdef0123456789ab"
          (bytes "A\r\n--0123456789abcdef0123456789abcdef0123456789abcdef0123456789ab\r\nB"))) =
      .ok [bytes "A"] ∧
    (mixedSingleTextMsg
        "0123456789abcdef0123456789abcdef0123456789abcdef0123456789ab"
        (bytes "A\r\n--0123456789abcdef0123456789abcdef0123456789abcdef0123456789ab\r\nB")).parts.map
      Msg.body =
      [bytes "A\r\n--0123456789abcdef0123456789abcdef0123456789abcdef0123456789ab\r\nB"] ∧
    bytes "A" ≠
      bytes "A\r\n--0123456789abcdef0123456789abcdef0123456789abcdef0123456789ab\r\nB" := by
  refine ⟨?_, rfl, by decide⟩
  rfl

end GoEmail
